import Mathlib

/-!
Verification of the `nutrition_data` repository.

The repository has two Python source files:

* `src/scripts/archive_cycle.py` — fetches records from a remote tabular API
  with rate-limit backoff, writes CSV dumps, creates an `ExportRun` audit
  record, and marks the exported rows as archived in batches of 10.
* `src/scripts/build_report_html.py` — reads the two CSV dumps and renders an
  HTML report, grouping meal rows under day rows by a shared day key.

This file gives a shallow embedding of the data model and the operations the
claims are about, translated from the Python source, and proves or refutes
each claim.  Embedding conventions:

* Python dictionaries of strings (CSV rows) are association lists
  `List (String × String)`; `row.get(k) or ""` is `Rec.getD`.
* Python machine integers are `Int`/`Nat` (no overflow is reachable here).
* Python floats in `kcal_badge` are modelled as exact rationals; the model
  covers finite decimal numerals (the values occurring in this data), not
  `inf`/`nan` spellings or rounding at the 53-bit boundary.
* Fallible code returns `Option`/sum-like result types.
* `str.strip()` is modelled on the ASCII whitespace characters
  (space, tab, newline, carriage return, vertical tab, form feed); the data
  handled by the scripts contains no exotic Unicode whitespace.
-/

namespace NutritionData

/-- The ASCII whitespace characters stripped by Python's `str.strip()`. -/
def pyWs (c : Char) : Bool :=
  c = ' ' || c = '\t' || c = '\n' || c = '\r' || c = '\x0b' || c = '\x0c'

/-- Python `s.strip()`: remove leading and trailing whitespace. -/
def pyStrip (s : String) : String :=
  String.mk (((s.toList.dropWhile pyWs).reverse.dropWhile pyWs).reverse)

/-- The numeric value of a decimal digit character, `none` otherwise. -/
def digitVal (c : Char) : Option Nat :=
  if c.isDigit then some (c.toNat - 48) else none

/-- The decimal digit character for `n ≤ 9`. -/
def digitChar (n : Nat) : Char :=
  Char.ofNat (48 + n)

/-- A CSV row as produced by `csv.DictReader`: an association list from column
name to cell text (Python dicts preserve insertion order). -/
abbrev Rec := List (String × String)

/-- Python `row.get(k) or ""`: the value under `k`, or `""` when the key is
absent (and `or ""` maps a falsy empty string to itself). -/
def Rec.getD (r : Rec) (k : String) : String :=
  (r.lookup k).getD ""

/-- A JSON value held in a fetched record's `fields` mapping: string, integer
number, boolean, null, list, or nested object.  (Fractional numbers are not
modelled; Python float rendering is outside this embedding.) -/
inductive PyVal where
  | str (s : String)
  | int (n : Int)
  | bool (b : Bool)
  | none
  | list (elems : List PyVal)
  | dict (entries : List (String × PyVal))

/-- The single-quote character (written via its code point). -/
def squote : Char := Char.ofNat 39

/-- Escaping of one string for Python `repr`, given the chosen delimiter:
backslash, the delimiter, and the common control characters are escaped;
other (printable) characters pass through.  Non-printable `\xhh` escapes are
not modelled; they do not occur in this data. -/
def pyReprEscape (quote : Char) (l : List Char) : List Char :=
  l.foldr (fun c acc =>
    (if c = '\\' then ['\\', '\\']
     else if c = quote then ['\\', quote]
     else if c = '\n' then ['\\', 'n']
     else if c = '\r' then ['\\', 'r']
     else if c = '\t' then ['\\', 't']
     else [c]) ++ acc) []

/-- Python `repr` of a string: single-quoted, unless the string contains a
single quote and no double quote, in which case it is double-quoted. -/
def pyReprStr (s : String) : String :=
  let q : Char := if s.contains squote && !(s.contains '"') then '"' else squote
  String.mk (q :: (pyReprEscape q s.toList ++ [q]))

mutual

/-- Python `repr` of a value (`str` falls back to this for every
non-string). -/
def pyRepr : PyVal → String
  | .str s => pyReprStr s
  | .int n => toString n
  | .bool b => if b then "True" else "False"
  | .none => "None"
  | .list es => "[" ++ String.intercalate ", " (pyReprList es) ++ "]"
  | .dict es => "\x7b" ++ String.intercalate ", " (pyReprDict es) ++ "\x7d"

def pyReprList : List PyVal → List String
  | [] => []
  | v :: vs => pyRepr v :: pyReprList vs

def pyReprDict : List (String × PyVal) → List String
  | [] => []
  | kv :: vs => (pyReprStr kv.1 ++ ": " ++ pyRepr kv.2) :: pyReprDict vs

end

/-- Python `str` of a value: a string is itself, everything else renders via
`repr` (which is what `str` does for ints, bools, `None`, lists, dicts). -/
def pyStr : PyVal → String
  | .str s => s
  | v => pyRepr v

namespace ArchiveCycle

/-- Fuel-driven worker for `chunk` (fuel `≥ lst.length` always suffices, and
`chunk` passes exactly `lst.length`). -/
def chunkFuel : Nat → List α → Nat → List (List α)
  | _, [], _ => []
  | 0, _ :: _, _ => []
  | _ + 1, _ :: _, 0 => []
  | f + 1, a :: as, n + 1 => (a :: as.take n) :: chunkFuel f (as.drop n) (n + 1)

/-- `archive_cycle.chunk(lst, n)`: successive slices `lst[i:i+n]` for
`i in range(0, len(lst), n)` (the generator is always fully consumed by its
caller, so it is modelled as the list of slices).  Python's `range` raises
`ValueError` for step `0`; that unreachable case is modelled as `[]`. -/
def chunk (lst : List α) (n : Nat) : List (List α) :=
  chunkFuel lst.length lst n

/-- Digit-string accumulator for `pyInt`. -/
def decDigitsLoop : List Char → Nat → Option Nat
  | [], acc => some acc
  | c :: rest, acc =>
      match digitVal c with
      | some v => decDigitsLoop rest (10 * acc + v)
      | none => none

/-- Python `int(s)` on a string: surrounding whitespace, an optional sign and
a non-empty run of decimal digits; anything else raises `ValueError`,
modelled as `none`.  (Python additionally permits single underscores between
digits; such inputs do not occur here and are modelled as unparseable.) -/
def pyInt (s : String) : Option Int :=
  match (s.toList.dropWhile pyWs).reverse.dropWhile pyWs |>.reverse with
  | [] => none
  | '+' :: r => if r = [] then none else (decDigitsLoop r 0).map Int.ofNat
  | '-' :: r => if r = [] then none else (decDigitsLoop r 0).map (fun n => -(n : Int))
  | r => (decDigitsLoop r 0).map Int.ofNat

/-- An HTTP response as observed by `_request_with_backoff`: its status code
and its optional `Retry-After` header. -/
structure Resp where
  status : Nat
  retryAfter : Option String
deriving DecidableEq

/-- How one call of `_request_with_backoff` ends: a returned response, an
exception from `raise_for_status`, or a `ValueError` from `int(...)` on an
unparseable `Retry-After` header. -/
inductive ReqOutcome where
  | success (r : Resp)
  | httpError (r : Resp)
  | valueError
deriving DecidableEq

/-- The observable behaviour of one `_request_with_backoff` call: how many
requests were issued, the durations of the `time.sleep(max(retry_after, 1))`
retry sleeps (in order), and the outcome.  The fixed `MIN_SLEEP = 0.25 s`
pre-request delay of `_sleep()` happens additionally before every attempt
and is not part of the retry-delay trace. -/
structure BackoffRun where
  attempts : Nat
  retrySleeps : List Int
  outcome : ReqOutcome
deriving DecidableEq

/-- The loop of `_request_with_backoff`, given the response each successive
request would receive (`resps i` is the response to the `i`-th request).
`rem` is the number of loop iterations left out of 8.  A non-429 status
returns after `raise_for_status` (which raises exactly for `400 ≤ status
< 600`); a 429 parses `Retry-After` (default `"1"`), sleeps
`max(retry_after, 1)`, and retries; when the loop ends, the final
`resp.raise_for_status()` raises on the last (429) response.  The `rem = 0`
entry case is unreachable (the loop bound is 8). -/
def backoffGo (resps : Nat → Resp) : Nat → Nat → BackoffRun
  | i, 0 => ⟨0, [], ReqOutcome.httpError (resps i)⟩
  | i, rem + 1 =>
      let r := resps i
      if r.status ≠ 429 then
        if 400 ≤ r.status ∧ r.status < 600 then ⟨1, [], ReqOutcome.httpError r⟩
        else ⟨1, [], ReqOutcome.success r⟩
      else
        match pyInt (r.retryAfter.getD "1") with
        | none => ⟨1, [], ReqOutcome.valueError⟩
        | some ra =>
            match rem with
            | 0 => ⟨1, [max ra 1], ReqOutcome.httpError r⟩
            | rem' + 1 =>
                let rest := backoffGo resps (i + 1) (rem' + 1)
                ⟨rest.attempts + 1, max ra 1 :: rest.retrySleeps, rest.outcome⟩

/-- `_request_with_backoff`: `for attempt in range(8): ...`. -/
def requestWithBackoff (resps : Nat → Resp) : BackoffRun :=
  backoffGo resps 0 8

/-- The `fields` object sent for one record in an archival PATCH batch. -/
structure ArchiveFields where
  archived : Bool
  archivedAt : String
  archiveBatch : String
  exportRunLink : List String
deriving DecidableEq

/-- `patch_records_archived(table, record_ids, run_record_id, run_tag)`,
modelled as the sequence of PATCH payloads it issues (one `records` array per
request).  `now` is the single `datetime.utcnow().isoformat() + "Z"` value
captured before the loop and reused for every batch. -/
def patch_records_archived (record_ids : List String)
    (run_record_id run_tag now : String) : List (List (String × ArchiveFields)) :=
  if record_ids = [] then []
  else
    (chunk record_ids 10).map (fun part =>
      part.map (fun rid => (rid, ⟨true, now, run_tag, [run_record_id]⟩)))

/-- A record as fetched from the remote API: `{'id': ..., 'fields': {...}}`. -/
structure ApiRec where
  id : String
  fields : List (String × PyVal)

/-- `rf.get(col, "")`: the field value, defaulting to the empty string. -/
def fieldOr (rf : List (String × PyVal)) (col : String) : PyVal :=
  (rf.lookup col).getD (.str "")

/-- `_normalize_cell`: a list flattens to its elements' `str()` forms joined
with `"; "`; a dict renders via `str()`; every other value passes through. -/
def normalize_cell : PyVal → PyVal
  | .list es => .str (String.intercalate "; " (es.map pyStr))
  | .dict es => .str (pyRepr (.dict es))
  | v => v

/-- How `csv.writer` turns a cell value into text: `None` becomes the empty
string, anything else its `str()` form. -/
def csvCellStr (v : PyVal) : String :=
  match v with
  | .none => ""
  | v => pyStr v

/-- QUOTE_MINIMAL: a cell is quoted iff it contains the delimiter, the quote
character, or a line-terminator character. -/
def needsQuote (s : String) : Bool :=
  s.toList.any (fun c => c = ',' || c = '"' || c = '\r' || c = '\n')

/-- Double every quote character (CPython's doublequote mode). -/
def escapeQuotes (l : List Char) : List Char :=
  l.foldr (fun c acc => (if c = '"' then ['"', '"'] else [c]) ++ acc) []

/-- One CSV cell as written by `csv.writer` with the default dialect. -/
def encodeCell (s : String) : String :=
  if needsQuote s then String.mk ('"' :: (escapeQuotes s.toList ++ ['"'])) else s

/-- Cells of one row joined with the `,` delimiter. -/
def encodeRowCells : List String → String
  | [] => ""
  | [c] => encodeCell c
  | c :: c2 :: cs => encodeCell c ++ "," ++ encodeRowCells (c2 :: cs)

/-- One CSV row as written by `csv.writer`: comma-joined cells, except that a
row consisting of a single empty field is written as `""` (CPython writes the
lone empty field quoted so the line is not mistaken for a blank line). -/
def encodeRow (cells : List String) : String :=
  match cells with
  | [c] => if c = "" then "\"\"" else encodeCell c
  | _ => encodeRowCells cells

/-- The rows of a CSV file, each terminated by the default `\r\n` (the file
is opened with `newline=""`, so the terminator is written literally). -/
def csvLines : List (List String) → String
  | [] => ""
  | row :: rest => encodeRow row ++ "\r\n" ++ csvLines rest

/-- `write_csv_utf8sig(path, fields, records)`, modelled as the text written:
a header row exactly matching `fields`, then one row per record holding
`_normalize_cell(rec.get("fields", {}).get(col, ""))` stringified per cell.
The `utf-8-sig` byte-order mark lives at the byte layer and is stripped again
by the reader's `utf-8-sig` decoding, so the text content is what round
trips. -/
def write_csv_utf8sig (fields : List String) (records : List ApiRec) : String :=
  csvLines (fields :: records.map (fun rec =>
    fields.map (fun col => csvCellStr (normalize_cell (fieldOr rec.fields col)))))

end ArchiveCycle

namespace ReportHtml

/-- Fuel-driven worker for `chunk`, as in `ArchiveCycle.chunkFuel`. -/
def chunkFuel : Nat → List α → Nat → List (List α)
  | _, [], _ => []
  | 0, _ :: _, _ => []
  | _ + 1, _ :: _, 0 => []
  | f + 1, a :: as, n + 1 => (a :: as.take n) :: chunkFuel f (as.drop n) (n + 1)

/-- `build_report_html.chunk(lst, size)`: the list comprehension
`[lst[i:i + size] for i in range(0, len(lst), size)]`. -/
def chunk (lst : List α) (size : Nat) : List (List α) :=
  chunkFuel lst.length lst size

/-- Sort key of a day row: the Python tuple
`(d.get("Дата") or "", d.get("День питания") or "")`. -/
def daySortKey (d : Rec) : String × String :=
  (d.getD "Дата", d.getD "День питания")

/-- Python tuple comparison of two string pairs (lexicographic; Python
compares strings by code points, as the Mathlib order on `String` does). -/
def pairLe (a b : String × String) : Bool :=
  decide (a.1 < b.1) || (decide (a.1 = b.1) && decide (a.2 ≤ b.2))

/-- `days.sort(key=lambda d: (d.get("Дата") or "", d.get("День питания") or ""))`;
Python's `list.sort` is a stable merge sort. -/
def sortDays (days : List Rec) : List Rec :=
  days.mergeSort (fun a b => pairLe (daySortKey a) (daySortKey b))

/-- Sort key of a meal row: `x.get("Дата и время") or ""`. -/
def mealSortKey (m : Rec) : String :=
  m.getD "Дата и время"

/-- `arr.sort(key=lambda x: (x.get("Дата и время") or ""))`. -/
def sortMeals (l : List Rec) : List Rec :=
  l.mergeSort (fun a b => decide (mealSortKey a ≤ mealSortKey b))

/-- The derived grouping key of a meal row in `build_html`:
`(m.get("DayKey") or "").strip()`. -/
def mealKey (m : Rec) : String :=
  pyStrip (m.getD "DayKey")

/-- The grouping key under which `build_html` looks up a day's meals:
`(day.get("День питания") or "").strip()`. -/
def dayKey (d : Rec) : String :=
  pyStrip (d.getD "День питания")

/-- Append `m` under key `k` in an insertion-ordered association list of
lists, creating the entry at the end when absent — the effect of
`defaultdict(list)`'s `by_day[dk].append(m)`. -/
def appendAt : List (String × List Rec) → String → Rec → List (String × List Rec)
  | [], k, m => [(k, [m])]
  | (k₀, l) :: rest, k, m =>
      if k₀ = k then (k₀, l ++ [m]) :: rest else (k₀, l) :: appendAt rest k m

/-- The `by_day` table of `build_html`: every meal whose stripped `DayKey` is
non-empty is appended under that key. -/
def byDay (meals : List Rec) : List (String × List Rec) :=
  meals.foldl (fun acc m => if mealKey m = "" then acc else appendAt acc (mealKey m) m) []

/-- `build_html` then sorts each `by_day` entry in place by raw timestamp. -/
def byDaySorted (meals : List Rec) : List (String × List Rec) :=
  (byDay meals).map (fun kv => (kv.1, sortMeals kv.2))

/-- Python `by_day.get(dk, [])`: first (unique) binding of `k`, default `[]`. -/
def lookupD : List (String × List Rec) → String → List Rec
  | [], _ => []
  | (k₀, v) :: rest, k => if k₀ = k then v else lookupD rest k

/-- The meal list rendered inside day `d`'s block:
`by_day.get((day.get("День питания") or "").strip(), [])`. -/
def blockFor (meals : List Rec) (d : Rec) : List Rec :=
  lookupD (byDaySorted meals) (dayKey d)

/-- The pages of the report: sorted days chunked 2 per page, each day paired
with the meal list rendered in its block. -/
def reportPages (days meals : List Rec) : List (List (Rec × List Rec)) :=
  (chunk (sortDays days) 2).map (fun page => page.map (fun d => (d, blockFor meals d)))

/-- All rendered day blocks of the report, in document order. -/
def renderedBlocks (days meals : List Rec) : List (Rec × List Rec) :=
  (reportPages days meals).flatten

/-- The day grouping key as the SPEC describes it.  This definition follows
the spec's words, not the source, and exists only for the refinement
comparison of claim C1: "the day-identifying field ('День питания') when
present, otherwise the day's date field truncated to a 10-character date
prefix". -/
def specDayKey (d : Rec) : String :=
  if d.getD "День питания" ≠ "" then d.getD "День питания"
  else String.mk ((d.getD "Дата").toList.take 10)

/-- The meal grouping key as the SPEC describes it (refinement comparison
definition for claim C1, following the spec's words, not the source): "the
meal's own day-identifying field ('DayKey') when present, otherwise the
leading 10 characters of its timestamp field ('Дата и время')". -/
def specMealKey (m : Rec) : String :=
  if m.getD "DayKey" ≠ "" then m.getD "DayKey"
  else String.mk ((m.getD "Дата и время").toList.take 10)

/-! #### The timestamp formatter `fmt_dt_ddmmyyyy` -/

/-- One char of lookahead: consume a required literal character, as in the
compiled `strptime` pattern. -/
def expectChar (c : Char) : List Char → Option (List Char)
  | x :: rest => if x = c then some rest else none
  | [] => none

/-- A 1–2 digit numeric directive of CPython's `strptime` regexes.  The
two-digit alternatives of `%m`/`%d`/`%H`/`%M` cover exactly the contiguous
value ranges `[lo2, hi2]` (e.g. `%d`'s `3[01]|[12]\d|0[1-9]` is 1–31), so a
two-digit match is taken when its value lies in that range and the directive
otherwise falls back to a single digit (`[1-9]` for `%m`/`%d`, any digit
when `allowZero1`).  No further backtracking can rescue a parse here,
because each directive is followed by a non-digit literal (or end checks
outside the regex), so this committed parser matches the regex semantics. -/
def parse2or1 (lo2 hi2 : Nat) (allowZero1 : Bool) : List Char → Option (Nat × List Char)
  | c1 :: c2 :: rest =>
      match digitVal c1, digitVal c2 with
      | some a, some b =>
          if lo2 ≤ 10 * a + b ∧ 10 * a + b ≤ hi2 then some (10 * a + b, rest)
          else if allowZero1 || decide (a ≠ 0) then some (a, c2 :: rest) else none
      | some a, none => if allowZero1 || decide (a ≠ 0) then some (a, c2 :: rest) else none
      | none, _ => none
  | [c1] =>
      match digitVal c1 with
      | some a => if allowZero1 || decide (a ≠ 0) then some (a, []) else none
      | none => none
  | [] => none

/-- `%Y` in CPython's `strptime`: exactly four digits. -/
def parse4digits : List Char → Option (Nat × List Char)
  | a :: b :: c :: d :: rest =>
      match digitVal a, digitVal b, digitVal c, digitVal d with
      | some x, some y, some z, some w => some (((x * 10 + y) * 10 + z) * 10 + w, rest)
      | _, _, _, _ => none
  | _ => none

/-- The Gregorian leap-year rule used by `datetime`. -/
def isLeap (y : Nat) : Bool :=
  (decide (y % 4 = 0) && decide (y % 100 ≠ 0)) || decide (y % 400 = 0)

/-- Days in a month, as validated by the `datetime` constructor. -/
def daysInMonth (y mo : Nat) : Nat :=
  if mo = 2 then (if isLeap y then 29 else 28)
  else if mo = 4 ∨ mo = 6 ∨ mo = 9 ∨ mo = 11 then 30
  else 31

/-- `datetime.strptime(s, "%Y-%m-%d %H:%M")`: the regex match (full-string,
with the "unconverted data remains" check) followed by the `datetime`
constructor's validation (`MINYEAR ≤ y`, day in range for the month; the
month/hour/minute ranges are already enforced by the directives). -/
def parseYmdHm (s : String) : Option (Nat × Nat × Nat × Nat × Nat) := do
  let (y, r1) ← parse4digits s.toList
  let r2 ← expectChar '-' r1
  let (mo, r3) ← parse2or1 1 12 false r2
  let r4 ← expectChar '-' r3
  let (d, r5) ← parse2or1 1 31 false r4
  let r6 ← expectChar ' ' r5
  let (h, r7) ← parse2or1 0 23 true r6
  let r8 ← expectChar ':' r7
  let (mi, r9) ← parse2or1 0 59 true r8
  if r9 = [] ∧ 1 ≤ y ∧ d ≤ daysInMonth y mo then pure (y, mo, d, h, mi) else none

/-- Two-digit zero-padded rendering, as `strftime`'s `%d`/`%m`/`%H`/`%M`
produce for the validated ranges. -/
def pad2 (n : Nat) : String :=
  String.mk [digitChar (n / 10), digitChar (n % 10)]

/-- Four-digit zero-padded rendering (used to state round-trip facts about
four-digit years). -/
def pad4 (n : Nat) : String :=
  String.mk [digitChar (n / 1000), digitChar (n / 100 % 10), digitChar (n / 10 % 10),
    digitChar (n % 10)]

/-- Unpadded decimal digits of `n` (fuel-driven; fuel 5 covers every year a
four-digit `%Y` can produce). -/
def natDigitsFuel : Nat → Nat → List Char
  | 0, _ => []
  | f + 1, n => if n < 10 then [digitChar n] else natDigitsFuel f (n / 10) ++ [digitChar (n % 10)]

/-- `strftime`'s `%Y` on this platform (glibc): the year in unpadded decimal
(observed: year 42 renders as `"42"`). -/
def yearStr (y : Nat) : String :=
  String.mk (natDigitsFuel 5 y)

/-- `fmt_dt_ddmmyyyy`: empty input renders empty; a string accepted by
`strptime("%Y-%m-%d %H:%M")` is re-rendered as `%d.%m.%Y %H:%M`; any other
value is returned unchanged (`except ValueError: return s`). -/
def fmt_dt_ddmmyyyy (s : String) : String :=
  if s = "" then ""
  else
    match parseYmdHm s with
    | some (y, mo, d, h, mi) =>
        pad2 d ++ "." ++ pad2 mo ++ "." ++ yearStr y ++ " " ++ pad2 h ++ ":" ++ pad2 mi
    | none => s

/-! #### The calorie badge `kcal_badge` -/

/-- Greedy digit run: value, digit count and remainder. -/
def parseDigitsAux : List Char → Nat → Nat → Nat × Nat × List Char
  | [], acc, cnt => (acc, cnt, [])
  | c :: rest, acc, cnt =>
      match digitVal c with
      | some v => parseDigitsAux rest (10 * acc + v) (cnt + 1)
      | none => (acc, cnt, c :: rest)

/-- Python `float(s)` on a finite decimal numeral, as `(mantissa, exponent)`
with value `mantissa · 10^exponent`: surrounding whitespace, an optional
sign, digits with an optional fractional part (at least one digit overall),
and an optional `e`/`E` exponent.  `inf`/`nan` spellings and digit-grouping
underscores are modelled as unparseable; they do not occur in this data. -/
def pyFloatParse (s : String) : Option (Int × Int) :=
  let l := (s.toList.dropWhile pyWs).reverse.dropWhile pyWs |>.reverse
  let sl : Int × List Char :=
    match l with
    | '+' :: r => (1, r)
    | '-' :: r => (-1, r)
    | r => (1, r)
  let (ip, ic, l2) := parseDigitsAux sl.2 0 0
  let fl : Nat × Nat × List Char :=
    match l2 with
    | '.' :: r => parseDigitsAux r 0 0
    | r => (0, 0, r)
  if ic + fl.2.1 = 0 then none
  else
    let mant : Int := sl.1 * ((ip * 10 ^ fl.2.1 + fl.1 : Nat) : Int)
    match fl.2.2 with
    | [] => some (mant, -(fl.2.1 : Int))
    | 'e' :: r | 'E' :: r =>
        let el : Int × List Char :=
          match r with
          | '+' :: rr => (1, rr)
          | '-' :: rr => (-1, rr)
          | rr => (1, rr)
        let (ev, ec, r2) := parseDigitsAux el.2 0 0
        if ec = 0 ∨ r2 ≠ [] then none
        else some (mant, el.1 * (ev : Int) - (fl.2.1 : Int))
    | _ => none

/-- Python `float(s)` as an exact rational. -/
def pyFloat (s : String) : Option ℚ :=
  (pyFloatParse s).map (fun p => (p.1 : ℚ) * 10 ^ p.2)

/-- `kcal_badge(fact, target)`: parse both strings as floats (any failure
yields the neutral `"badge"`), guard `t <= 0`, then pick the class from the
ratio.  The two upper tiers both return `"badge badge-warn"`, exactly as in
the source. -/
def kcal_badge (fact target : String) : String :=
  match pyFloat fact, pyFloat target with
  | some f, some t =>
      if t ≤ 0 then "badge"
      else if f / t ≤ 1.05 then "badge badge-ok"
      else if f / t ≤ 1.15 then "badge badge-warn"
      else "badge badge-warn"
  | _, _ => "badge"

/-! #### The CSV reader `read_csv` (`csv.DictReader` over `utf-8-sig` text) -/

/-- In an unquoted field, reading stops at the delimiter or a line
terminator. -/
def notSep (c : Char) : Bool :=
  !(c = ',' || c = '\r' || c = '\n')

/-- Consume the inside of a quoted field up to and including its closing
quote; a doubled quote is one literal quote.  `none` on an unterminated
quote (the Python reader's error case; never produced by the writer). -/
def parseQuotedTail : List Char → Option (List Char × List Char)
  | [] => Option.none
  | c :: rest =>
      if c = '"' then
        if rest.head? = some '"' then
          match parseQuotedTail rest.tail with
          | Option.some (f, r) => Option.some ('"' :: f, r)
          | Option.none => Option.none
        else Option.some ([], rest)
      else
        match parseQuotedTail rest with
        | Option.some (f, r) => Option.some (c :: f, r)
        | Option.none => Option.none
termination_by l => l.length
decreasing_by
  · simp [List.length_tail]
    omega
  · simp

/-- One CSV field: quoted if it starts with the quote character, otherwise
everything up to the next separator. -/
def parseCell : List Char → Option (String × List Char)
  | [] => Option.some ("", [])
  | c :: rest =>
      if c = '"' then
        match parseQuotedTail rest with
        | Option.some (f, r) => Option.some (String.mk f, r)
        | Option.none => Option.none
      else
        Option.some (String.mk ((c :: rest).takeWhile notSep),
          (c :: rest).dropWhile notSep)

/-- One CSV record: fields separated by `,`, ended by `\r\n`, `\n` or the end
of input.  Fuel-driven (one unit per field; the caller passes more fuel than
the input length, which always suffices). -/
def parseRowFuel : Nat → List Char → Option (List String × List Char)
  | 0, _ => Option.none
  | fuel + 1, l =>
      match parseCell l with
      | Option.none => Option.none
      | Option.some (c, rest) =>
          match rest with
          | [] => Option.some ([c], [])
          | r1 :: r2 =>
              if r1 = ',' then
                match parseRowFuel fuel r2 with
                | Option.some (cs, r3) => Option.some (c :: cs, r3)
                | Option.none => Option.none
              else if r1 = '\r' then
                match r2 with
                | r2h :: r2t =>
                    if r2h = '\n' then Option.some ([c], r2t) else Option.none
                | [] => Option.none
              else if r1 = '\n' then Option.some ([c], r2)
              else Option.none

/-- The records of a CSV text, as `csv.reader` yields them: a blank line is
an empty (`[]`) record; a malformed record stops the iteration (Python would
raise; the writer's output is never malformed).  Fuel-driven, one unit per
record. -/
def parseRecordsFuel : Nat → List Char → List (List String)
  | 0, _ => []
  | _ + 1, [] => []
  | fuel + 1, c :: rest =>
      if c = '\r' ∧ rest.head? = some '\n' then [] :: parseRecordsFuel fuel rest.tail
      else if c = '\n' then [] :: parseRecordsFuel fuel rest
      else
        match parseRowFuel ((c :: rest).length + 1) (c :: rest) with
        | Option.some (row, r2) => row :: parseRecordsFuel fuel r2
        | Option.none => []

/-- `csv.DictReader`: the first record gives the field names; blank records
are skipped; each remaining record is zipped with the header.  (CPython pads
or spills mismatched row lengths via `restval`/`restkey`; rows written by
this repository's serializer always match the header width, so plain `zip`
is the reachable behaviour.) -/
def dictReader (rows : List (List String)) : List (List (String × String)) :=
  match rows with
  | [] => []
  | header :: rest => (rest.filter (fun r => !r.isEmpty)).map (fun row => header.zip row)

/-- `read_csv(path)`: `list(csv.DictReader(f))` over the file's text (the
`utf-8-sig` decoding strips the byte-order mark the writer prepended). -/
def read_csv (text : String) : List (List (String × String)) :=
  dictReader (parseRecordsFuel (text.toList.length + 1) text.toList)

end ReportHtml

/-! ## Theorems -/

/-! ### Shared facts about the chunking helpers -/

theorem ArchiveCycle.chunkFuel_flatten :
    ∀ (f : Nat) (l : List α) (n : Nat), l.length ≤ f → 0 < n →
      (ArchiveCycle.chunkFuel f l n).flatten = l := by
  intro f
  induction f with
  | zero =>
    intro l n hl _
    have : l = [] := List.eq_nil_of_length_eq_zero (Nat.le_zero.mp hl)
    subst this
    rfl
  | succ f ih =>
    intro l n hl hn
    match l, n with
    | [], _ => rfl
    | _ :: _, 0 => exact absurd hn (by simp)
    | a :: as, n + 1 =>
      have hdrop : (as.drop n).length ≤ f := by
        have h1 : as.length ≤ f := Nat.lt_succ_iff.mp hl
        calc (as.drop n).length = as.length - n := List.length_drop n as
          _ ≤ as.length := Nat.sub_le _ _
          _ ≤ f := h1
      simp only [ArchiveCycle.chunkFuel, List.flatten_cons, ih _ _ hdrop hn]
      simp [List.take_append_drop]

theorem ArchiveCycle.chunkFuel_mem :
    ∀ (f : Nat) (l : List α) (n : Nat) (c : List α), c ∈ ArchiveCycle.chunkFuel f l n →
      c ≠ [] ∧ c.length ≤ n := by
  intro f
  induction f with
  | zero =>
    intro l n c hc
    match l with
    | [] => simp [ArchiveCycle.chunkFuel] at hc
    | _ :: _ => simp [ArchiveCycle.chunkFuel] at hc
  | succ f ih =>
    intro l n c hc
    match l, n with
    | [], _ => simp [ArchiveCycle.chunkFuel] at hc
    | _ :: _, 0 => simp [ArchiveCycle.chunkFuel] at hc
    | a :: as, n + 1 =>
      simp only [ArchiveCycle.chunkFuel, List.mem_cons] at hc
      rcases hc with rfl | hc
      · refine ⟨by simp, ?_⟩
        have : (as.take n).length ≤ n := by
          simp [List.length_take_le n as]
        simp [Nat.succ_le_succ this]
      · exact ih _ _ _ hc

theorem ArchiveCycle.chunk_flatten (l : List α) (n : Nat) (hn : 0 < n) :
    (ArchiveCycle.chunk l n).flatten = l :=
  ArchiveCycle.chunkFuel_flatten _ _ _ (Nat.le_refl _) hn

theorem ArchiveCycle.chunk_mem (l : List α) (n : Nat) (c : List α)
    (hc : c ∈ ArchiveCycle.chunk l n) : c ≠ [] ∧ c.length ≤ n :=
  ArchiveCycle.chunkFuel_mem _ _ _ _ hc

theorem ReportHtml.chunkFuel_eq :
    ∀ (f : Nat) (l : List α) (n : Nat),
      ReportHtml.chunkFuel f l n = ArchiveCycle.chunkFuel f l n := by
  intro f
  induction f with
  | zero =>
    intro l n
    match l with
    | [] => rfl
    | _ :: _ => rfl
  | succ f ih =>
    intro l n
    match l, n with
    | [], _ => rfl
    | _ :: _, 0 => rfl
    | a :: as, n + 1 =>
      simp only [ReportHtml.chunkFuel, ArchiveCycle.chunkFuel, ih]

theorem ReportHtml.chunk_eq (l : List α) (n : Nat) :
    ReportHtml.chunk l n = ArchiveCycle.chunk l n :=
  ReportHtml.chunkFuel_eq _ _ _

/-- **C10**: for every list and every chunk size `n > 0`, both chunking
helpers (`archive_cycle.chunk` and `build_report_html.chunk`) produce
sublists whose concatenation in order equals the original list, with every
sublist non-empty and of length at most `n`. -/
theorem C10_chunk_flatten_nonempty_bounded (l : List α) (n : Nat) (hn : 0 < n) :
    ((ArchiveCycle.chunk l n).flatten = l ∧
      ∀ c ∈ ArchiveCycle.chunk l n, c ≠ [] ∧ c.length ≤ n) ∧
    ((ReportHtml.chunk l n).flatten = l ∧
      ∀ c ∈ ReportHtml.chunk l n, c ≠ [] ∧ c.length ≤ n) := by
  refine ⟨⟨ArchiveCycle.chunk_flatten l n hn, fun c hc => ArchiveCycle.chunk_mem l n c hc⟩, ?_⟩
  rw [ReportHtml.chunk_eq]
  exact ⟨ArchiveCycle.chunk_flatten l n hn, fun c hc => ArchiveCycle.chunk_mem l n c hc⟩

/-- Witness for **C10** at `l = [1, 2, 3]`, `n = 2`. -/
theorem C10_chunk_flatten_nonempty_bounded_witness :
    ((ArchiveCycle.chunk [1, 2, 3] 2).flatten = [1, 2, 3] ∧
      ∀ c ∈ ArchiveCycle.chunk [1, 2, 3] 2, c ≠ [] ∧ c.length ≤ 2) ∧
    ((ReportHtml.chunk [1, 2, 3] 2).flatten = [1, 2, 3] ∧
      ∀ c ∈ ReportHtml.chunk [1, 2, 3] 2, c ≠ [] ∧ c.length ≤ 2) :=
  C10_chunk_flatten_nonempty_bounded [1, 2, 3] 2 (by decide)

/-! ### Report grouping (`build_report_html.build_html`) -/

namespace ReportHtml

theorem mergeSort_nil_eq (le : α → α → Bool) : ([] : List α).mergeSort le = [] :=
  (List.mergeSort_perm [] le).eq_nil

theorem mergeSort_singleton_eq (le : α → α → Bool) (a : α) : [a].mergeSort le = [a] :=
  (List.singleton_perm.mp (List.mergeSort_perm [a] le).symm).symm

theorem lookupD_appendAt (acc : List (String × List Rec)) (k q : String) (m : Rec) :
    lookupD (appendAt acc k m) q =
      if q = k then lookupD acc k ++ [m] else lookupD acc q := by
  induction acc with
  | nil =>
    by_cases h : q = k
    · subst h; simp [appendAt, lookupD]
    · have hs : ¬ k = q := fun hh => h hh.symm
      simp [appendAt, lookupD, h, hs]
  | cons kv rest ih =>
    obtain ⟨k₀, l⟩ := kv
    by_cases h0 : k₀ = k
    · subst h0
      by_cases h : q = k₀
      · subst h; simp [appendAt, lookupD]
      · have hs : ¬ k₀ = q := fun hh => h hh.symm
        simp [appendAt, lookupD, h, hs]
    · by_cases h : k₀ = q
      · have hqk : ¬ q = k := fun hh => h0 (h.trans hh)
        simp [appendAt, lookupD, h0, h, hqk]
      · simp [appendAt, lookupD, h0, h, ih]

theorem lookupD_byDay_foldl (meals : List Rec) :
    ∀ (acc : List (String × List Rec)) (k : String), k ≠ "" →
      lookupD (meals.foldl
          (fun acc m => if mealKey m = "" then acc else appendAt acc (mealKey m) m) acc) k
        = lookupD acc k ++ meals.filter (fun m => mealKey m == k) := by
  induction meals with
  | nil => intro acc k _; simp
  | cons m rest ih =>
    intro acc k hk
    by_cases hm : mealKey m = ""
    · have hmk : (mealKey m == k) = false :=
        beq_eq_false_iff_ne.mpr (fun hh => hk (hh ▸ hm))
      simp only [List.foldl_cons, if_pos hm, List.filter_cons, hmk, cond_false]
      exact ih acc k hk
    · simp only [List.foldl_cons, if_neg hm, List.filter_cons]
      rw [ih _ k hk, lookupD_appendAt]
      by_cases hq : mealKey m = k
      · have hb : (mealKey m == k) = true := beq_iff_eq.mpr hq
        have hkq : k = mealKey m := hq.symm
        simp [hb, hkq, List.append_assoc]
      · have hb : (mealKey m == k) = false := beq_eq_false_iff_ne.mpr hq
        have hkq : ¬ k = mealKey m := fun hh => hq hh.symm
        simp [hb, hkq]

theorem lookupD_byDay_foldl_empty (meals : List Rec) :
    ∀ (acc : List (String × List Rec)),
      lookupD (meals.foldl
          (fun acc m => if mealKey m = "" then acc else appendAt acc (mealKey m) m) acc) ""
        = lookupD acc "" := by
  induction meals with
  | nil => intro acc; simp
  | cons m rest ih =>
    intro acc
    by_cases hm : mealKey m = ""
    · simpa [List.foldl_cons, if_pos hm] using ih acc
    · simp only [List.foldl_cons, if_neg hm]
      rw [ih, lookupD_appendAt]
      have : ¬ ("" : String) = mealKey m := fun hh => hm hh.symm
      simp [this]

theorem lookupD_map_sortMeals (t : List (String × List Rec)) (k : String) :
    lookupD (t.map (fun kv => (kv.1, sortMeals kv.2))) k = sortMeals (lookupD t k) := by
  induction t with
  | nil => simp [lookupD, sortMeals, mergeSort_nil_eq]
  | cons kv rest ih =>
    obtain ⟨k₀, l⟩ := kv
    by_cases h : k₀ = k <;> simp [lookupD, h, ih]

theorem lookupD_byDaySorted (meals : List Rec) (k : String) :
    lookupD (byDaySorted meals) k = sortMeals (lookupD (byDay meals) k) := by
  unfold byDaySorted
  exact lookupD_map_sortMeals _ _

/-- The meal list rendered in day `d`'s block, characterised: it is the
time-sorted list of meals whose stripped `DayKey` equals `d`'s stripped
day-label key, and it is empty when that key is empty. -/
theorem blockFor_eq (meals : List Rec) (d : Rec) :
    blockFor meals d =
      if dayKey d = "" then []
      else sortMeals (meals.filter (fun m => mealKey m == dayKey d)) := by
  unfold blockFor
  rw [lookupD_byDaySorted]
  by_cases h : dayKey d = ""
  · rw [if_pos h, h]
    have h0 : lookupD (byDay meals) "" = [] := by
      unfold byDay
      rw [lookupD_byDay_foldl_empty meals []]
      rfl
    rw [h0]
    simp [sortMeals, mergeSort_nil_eq]
  · rw [if_neg h]
    unfold byDay
    rw [lookupD_byDay_foldl meals [] (dayKey d) h]
    rfl

theorem renderedBlocks_eq (days meals : List Rec) :
    renderedBlocks days meals = (sortDays days).map (fun d => (d, blockFor meals d)) := by
  unfold renderedBlocks reportPages
  rw [← List.map_flatten, chunk_eq, ArchiveCycle.chunk_flatten _ _ (by decide)]

theorem mem_renderedBlocks (days meals : List Rec) (d : Rec) (bl : List Rec)
    (h : (d, bl) ∈ renderedBlocks days meals) :
    d ∈ days ∧ bl = blockFor meals d := by
  rw [renderedBlocks_eq] at h
  obtain ⟨d₀, hd₀, heq⟩ := List.mem_map.mp h
  cases heq
  exact ⟨List.mem_mergeSort.mp hd₀, rfl⟩

/-- Membership characterisation of a rendered block. -/
theorem mem_block_iff (days meals : List Rec) (d : Rec) (bl : List Rec) (m : Rec)
    (h : (d, bl) ∈ renderedBlocks days meals) :
    m ∈ bl ↔ m ∈ meals ∧ mealKey m ≠ "" ∧ mealKey m = dayKey d := by
  obtain ⟨-, rfl⟩ := mem_renderedBlocks days meals d bl h
  rw [blockFor_eq]
  by_cases hd : dayKey d = ""
  · rw [if_pos hd]
    simp only [List.not_mem_nil, false_iff]
    rintro ⟨-, hne, hkey⟩
    exact hne (hkey.trans hd)
  · rw [if_neg hd]
    unfold sortMeals
    rw [List.mem_mergeSort, List.mem_filter]
    constructor
    · rintro ⟨hm, hk⟩
      have hk := beq_iff_eq.mp hk
      exact ⟨hm, fun hh => hd (hk.symm.trans hh), hk⟩
    · rintro ⟨hm, -, hk⟩
      exact ⟨hm, beq_iff_eq.mpr hk⟩

/-- Multiplicity characterisation of a rendered block. -/
theorem count_block (days meals : List Rec) (d : Rec) (bl : List Rec) (m : Rec)
    (h : (d, bl) ∈ renderedBlocks days meals) :
    List.count m bl =
      if mealKey m ≠ "" ∧ mealKey m = dayKey d then List.count m meals else 0 := by
  obtain ⟨-, rfl⟩ := mem_renderedBlocks days meals d bl h
  rw [blockFor_eq]
  by_cases hd : dayKey d = ""
  · rw [if_pos hd]
    rw [if_neg]
    · simp
    · rintro ⟨hne, hkey⟩
      exact hne (hkey.trans hd)
  · rw [if_neg hd]
    have hcount : List.count m (sortMeals (meals.filter (fun m => mealKey m == dayKey d)))
        = List.count m (meals.filter (fun m => mealKey m == dayKey d)) := by
      have := (List.mergeSort_perm (meals.filter (fun m => mealKey m == dayKey d))
        (fun a b => decide (mealSortKey a ≤ mealSortKey b))).countP_eq (fun x => x == m)
      simpa [sortMeals, List.count] using this
    rw [hcount]
    by_cases hk : mealKey m = dayKey d
    · rw [if_pos ⟨fun hh => hd (hk.symm.trans hh), hk⟩]
      exact List.count_filter (by simp [beq_iff_eq, hk])
    · rw [if_neg (fun hc => hk hc.2)]
      rw [List.count_eq_zero]
      intro hmem
      exact hk (beq_iff_eq.mp (List.mem_filter.mp hmem).2)

theorem renderedBlocks_nil (meals : List Rec) : renderedBlocks [] meals = [] := by
  rw [renderedBlocks_eq]
  unfold sortDays
  rw [mergeSort_nil_eq]
  rfl

theorem renderedBlocks_singleton (d : Rec) (meals : List Rec) :
    renderedBlocks [d] meals = [(d, blockFor meals d)] := by
  rw [renderedBlocks_eq]
  unfold sortDays
  rw [mergeSort_singleton_eq]
  rfl

theorem pyStrip_of_all_ws (s : String) (h : s.toList.all pyWs) : pyStrip s = "" := by
  unfold pyStrip
  have h1 : s.toList.dropWhile pyWs = [] :=
    List.dropWhile_eq_nil_iff.mpr (fun x hx => List.all_eq_true.mp h x hx)
  rw [h1]
  rfl

/-! #### Claims C1, C5, C9 -/

/-- **C1, counterexample**: the code derives the grouping keys with NO
fallback to the date/timestamp fields.  For a day row having only a date and
a meal row having only a timestamp, the code's keys are empty while the
spec's derivation produces the 10-character date prefixes. -/
theorem C1_counterexample :
    dayKey [("Дата", "2026-02-15")] ≠ specDayKey [("Дата", "2026-02-15")] ∧
    mealKey [("Дата и время", "2025-09-26 08:30")]
      ≠ specMealKey [("Дата и время", "2025-09-26 08:30")] ∧
    dayKey [("Дата", "2026-02-15")] = "" ∧
    specDayKey [("Дата", "2026-02-15")] = "2026-02-15" ∧
    mealKey [("Дата и время", "2025-09-26 08:30")] = "" ∧
    specMealKey [("Дата и время", "2025-09-26 08:30")] = "2025-09-26" := by
  decide

/-- **C1, amended**: the grouping key of a day record is its stripped
day-identifying field ('День питания'), the empty string when that field is
absent or empty (no fallback to the date field); the grouping key of a meal
record is its stripped 'DayKey' field, the empty string when absent or empty
(no fallback to the timestamp field).  These keys govern membership of a
meal in a rendered day block. -/
theorem C1_amended_grouping_keys (days meals : List Rec) (d : Rec) (bl : List Rec) (m : Rec)
    (h : (d, bl) ∈ renderedBlocks days meals) :
    m ∈ bl ↔ m ∈ meals ∧ pyStrip (m.getD "DayKey") ≠ "" ∧
      pyStrip (m.getD "DayKey") = pyStrip (d.getD "День питания") := by
  simpa [mealKey, dayKey] using mem_block_iff days meals d bl m h

/-- Witness for **C1 (amended)** at a one-day, one-meal report. -/
theorem C1_amended_grouping_keys_witness :
    [("DayKey", "x")] ∈ blockFor [[("DayKey", "x")]] [("День питания", "x")] ↔
      [("DayKey", "x")] ∈ [[("DayKey", "x")]] ∧
      pyStrip (Rec.getD [("DayKey", "x")] "DayKey") ≠ "" ∧
      pyStrip (Rec.getD [("DayKey", "x")] "DayKey")
        = pyStrip (Rec.getD [("День питания", "x")] "День питания") :=
  C1_amended_grouping_keys [[("День питания", "x")]] [[("DayKey", "x")]]
    [("День питания", "x")] (blockFor [[("DayKey", "x")]] [("День питания", "x")])
    [("DayKey", "x")]
    (by rw [renderedBlocks_singleton]; exact List.mem_singleton.mpr rfl)

/-- **C5, counterexample**: a meal with a non-empty derived day key need NOT
be rendered inside exactly one day block — when no day row carries that key
(here: no day rows at all) the meal appears in zero blocks. -/
theorem C5_counterexample :
    mealKey [("DayKey", "x")] ≠ "" ∧ renderedBlocks [] [[("DayKey", "x")]] = [] :=
  ⟨by decide, renderedBlocks_nil _⟩

/-- **C5, amended**: in every rendered day block, a meal occurs as many times
as it occurs in the input meal list if its non-empty derived key equals that
day's derived key, and zero times otherwise (so a meal is rendered exactly
once in each block of a matching day, and in no block when its key is empty
or matches no day); a day whose key matches no meal still renders, with an
empty meal list. -/
theorem C5_amended_grouping_invariant (days meals : List Rec) (d : Rec) (bl : List Rec)
    (m : Rec) (h : (d, bl) ∈ renderedBlocks days meals) :
    (List.count m bl =
        if mealKey m ≠ "" ∧ mealKey m = dayKey d then List.count m meals else 0)
    ∧ (mealKey m = "" → m ∉ bl)
    ∧ ((∀ mm ∈ meals, ¬ mealKey mm = dayKey d) → bl = [])
    ∧ (∀ d₀ ∈ days, ∃ bl₀, (d₀, bl₀) ∈ renderedBlocks days meals) := by
  refine ⟨count_block days meals d bl m h, ?_, ?_, ?_⟩
  · intro hk hmem
    exact ((mem_block_iff days meals d bl m h).mp hmem).2.1 hk
  · intro hnone
    obtain ⟨-, rfl⟩ := mem_renderedBlocks days meals d bl h
    rw [blockFor_eq]
    by_cases hd : dayKey d = ""
    · rw [if_pos hd]
    · rw [if_neg hd]
      have hfil : meals.filter (fun m => mealKey m == dayKey d) = [] :=
        List.filter_eq_nil_iff.mpr
          (fun mm hmm => by simpa [beq_iff_eq] using hnone mm hmm)
      rw [hfil]
      exact mergeSort_nil_eq _
  · intro d₀ hd₀
    refine ⟨blockFor meals d₀, ?_⟩
    rw [renderedBlocks_eq]
    exact List.mem_map.mpr ⟨d₀, List.mem_mergeSort.mpr hd₀, rfl⟩

/-- Witness for **C5 (amended)** at a one-day, one-meal report. -/
theorem C5_amended_grouping_invariant_witness :
    (List.count [("DayKey", "d1")] (blockFor [[("DayKey", "d1")]] [("День питания", "d1")]) =
        if mealKey [("DayKey", "d1")] ≠ "" ∧
            mealKey [("DayKey", "d1")] = dayKey [("День питания", "d1")] then
          List.count [("DayKey", "d1")] [[("DayKey", "d1")]]
        else 0)
    ∧ (mealKey [("DayKey", "d1")] = "" →
        [("DayKey", "d1")] ∉ blockFor [[("DayKey", "d1")]] [("День питания", "d1")])
    ∧ ((∀ mm ∈ [[("DayKey", "d1")]], ¬ mealKey mm = dayKey [("День питания", "d1")]) →
        blockFor [[("DayKey", "d1")]] [("День питания", "d1")] = [])
    ∧ (∀ d₀ ∈ [[("День питания", "d1")]], ∃ bl₀,
        (d₀, bl₀) ∈ renderedBlocks [[("День питания", "d1")]] [[("DayKey", "d1")]]) :=
  C5_amended_grouping_invariant [[("День питания", "d1")]] [[("DayKey", "d1")]]
    [("День питания", "d1")] (blockFor [[("DayKey", "d1")]] [("День питания", "d1")])
    [("DayKey", "d1")]
    (by rw [renderedBlocks_singleton]; exact List.mem_singleton.mpr rfl)

/-- **C9**: grouping keys are whitespace-trimmed before use — a meal whose
`DayKey` consists only of whitespace is treated as having an empty key and
appears in no day block, and a day's key is likewise stripped before the
meal-list lookup, so keys differing only in surrounding whitespace still
match. -/
theorem C9_keys_whitespace_trimmed (days meals : List Rec) (d : Rec) (bl : List Rec)
    (m : Rec) (h : (d, bl) ∈ renderedBlocks days meals) :
    ((m.getD "DayKey").toList.all pyWs → m ∉ bl)
    ∧ (pyStrip (m.getD "DayKey") = pyStrip (d.getD "День питания") →
        (m ∈ bl ↔ m ∈ meals ∧ pyStrip (m.getD "DayKey") ≠ "")) := by
  constructor
  · intro hws hmem
    have hk : mealKey m = "" := pyStrip_of_all_ws _ hws
    exact ((mem_block_iff days meals d bl m h).mp hmem).2.1 hk
  · intro hstrip
    rw [mem_block_iff days meals d bl m h]
    unfold mealKey dayKey
    constructor
    · rintro ⟨hm, hne, -⟩
      exact ⟨hm, hne⟩
    · rintro ⟨hm, hne⟩
      exact ⟨hm, hne, hstrip⟩

/-- Witness for **C9**: the meal's `DayKey` is `"  w1  "`, the day label is
`"w1"`; the keys differ only in surrounding whitespace. -/
theorem C9_keys_whitespace_trimmed_witness :
    ((Rec.getD [("DayKey", "  w1  ")] "DayKey").toList.all pyWs →
      [("DayKey", "  w1  ")] ∉ blockFor [[("DayKey", "  w1  ")]] [("День питания", "w1")])
    ∧ (pyStrip (Rec.getD [("DayKey", "  w1  ")] "DayKey")
          = pyStrip (Rec.getD [("День питания", "w1")] "День питания") →
        ([("DayKey", "  w1  ")] ∈ blockFor [[("DayKey", "  w1  ")]] [("День питания", "w1")] ↔
          [("DayKey", "  w1  ")] ∈ [[("DayKey", "  w1  ")]] ∧
          pyStrip (Rec.getD [("DayKey", "  w1  ")] "DayKey") ≠ "")) :=
  C9_keys_whitespace_trimmed [[("День питания", "w1")]] [[("DayKey", "  w1  ")]]
    [("День питания", "w1")] (blockFor [[("DayKey", "  w1  ")]] [("День питания", "w1")])
    [("DayKey", "  w1  ")]
    (by rw [renderedBlocks_singleton]; exact List.mem_singleton.mpr rfl)

end ReportHtml

/-! ### HTTP backoff and archival batching (`archive_cycle`) -/
namespace ArchiveCycle

/-- One-step unfolding of the `backoffGo` loop body (stated separately so
proofs can unfold exactly one iteration). -/
theorem backoffGo_succ_eq (resps : Nat → Resp) (i rem : Nat) :
    backoffGo resps i (rem + 1) =
      if (resps i).status ≠ 429 then
        if 400 ≤ (resps i).status ∧ (resps i).status < 600 then
          ⟨1, [], ReqOutcome.httpError (resps i)⟩
        else ⟨1, [], ReqOutcome.success (resps i)⟩
      else
        match pyInt ((resps i).retryAfter.getD "1") with
        | none => ⟨1, [], ReqOutcome.valueError⟩
        | some ra =>
            match rem with
            | 0 => ⟨1, [max ra 1], ReqOutcome.httpError (resps i)⟩
            | rem' + 1 =>
                let rest := backoffGo resps (i + 1) (rem' + 1)
                ⟨rest.attempts + 1, max ra 1 :: rest.retrySleeps, rest.outcome⟩ := by
  conv_lhs => rw [backoffGo]

theorem backoffGo_all429 (resps : Nat → Resp) (ra : Nat → Int)
    (h429 : ∀ i, (resps i).status = 429)
    (hra : ∀ i, pyInt ((resps i).retryAfter.getD "1") = some (ra i)) :
    ∀ rem, 0 < rem → ∀ i,
      (backoffGo resps i rem).attempts = rem
      ∧ (backoffGo resps i rem).retrySleeps.length = rem
      ∧ (backoffGo resps i rem).outcome = ReqOutcome.httpError (resps (i + (rem - 1)))
      ∧ ∀ j, j < rem → (backoffGo resps i rem).retrySleeps.getD j 0 = max (ra (i + j)) 1 := by
  intro rem
  induction rem with
  | zero => intro h; exact absurd h (by decide)
  | succ rem' ih =>
    intro _ i
    have hs : ¬ (resps i).status ≠ 429 := by simp [h429 i]
    match rem' with
    | 0 =>
      rw [backoffGo_succ_eq, if_neg hs, hra i]
      refine ⟨rfl, rfl, by simp, ?_⟩
      intro j hj
      interval_cases j
      simp
    | rem'' + 1 =>
      obtain ⟨ha, hl, ho, hj⟩ := ih (by omega) (i + 1)
      rw [backoffGo_succ_eq, if_neg hs, hra i]
      refine ⟨?_, ?_, ?_, ?_⟩
      · show (backoffGo resps (i + 1) (rem'' + 1)).attempts + 1 = rem'' + 1 + 1
        rw [ha]
      · show (max (ra i) 1 :: (backoffGo resps (i + 1) (rem'' + 1)).retrySleeps).length
            = rem'' + 1 + 1
        rw [List.length_cons, hl]
      · show (backoffGo resps (i + 1) (rem'' + 1)).outcome
            = ReqOutcome.httpError (resps (i + (rem'' + 1 + 1 - 1)))
        rw [ho]
        have harg : i + 1 + (rem'' + 1 - 1) = i + (rem'' + 1 + 1 - 1) := by omega
        rw [harg]
      · intro j hjlt
        show (max (ra i) 1 :: (backoffGo resps (i + 1) (rem'' + 1)).retrySleeps).getD j 0
            = max (ra (i + j)) 1
        match j with
        | 0 => simp
        | j + 1 =>
          have := hj j (by omega)
          simpa [Nat.add_assoc, Nat.add_comm 1 j] using this

/-- **C3**: for a sequence of responses that all carry status 429 (each with
a defined retry delay: `Retry-After` absent, defaulting to `"1"`, or parsing
as an integer), the client makes exactly 8 attempts, before each retry
sleeps at least the server-specified delay and at least 1 second, and on
giving up surfaces the final response's error; for any other non-success
status (`400 ≤ status < 600`, not 429) it fails immediately after a single
attempt with no retry sleeps, surfacing that response's error. -/
theorem C3_throttling_retry_policy (resps other : Nat → Resp) (ra : Nat → Int)
    (h429 : ∀ i, (resps i).status = 429)
    (hra : ∀ i, pyInt ((resps i).retryAfter.getD "1") = some (ra i))
    (hother : (other 0).status ≠ 429)
    (herr : 400 ≤ (other 0).status ∧ (other 0).status < 600) :
    (requestWithBackoff resps).attempts = 8
    ∧ (requestWithBackoff resps).retrySleeps.length = 8
    ∧ (requestWithBackoff resps).outcome = ReqOutcome.httpError (resps 7)
    ∧ (∀ j, j < 8 → ra j ≤ (requestWithBackoff resps).retrySleeps.getD j 0
        ∧ 1 ≤ (requestWithBackoff resps).retrySleeps.getD j 0)
    ∧ (requestWithBackoff other).attempts = 1
    ∧ (requestWithBackoff other).retrySleeps = []
    ∧ (requestWithBackoff other).outcome = ReqOutcome.httpError (other 0) := by
  obtain ⟨ha, hl, ho, hj⟩ := backoffGo_all429 resps ra h429 hra 8 (by decide) 0
  have h8 : (8 : Nat) = 7 + 1 := rfl
  have hunf : requestWithBackoff other
      = ⟨1, [], ReqOutcome.httpError (other 0)⟩ := by
    rw [requestWithBackoff, h8, backoffGo_succ_eq, if_pos hother, if_pos herr]
  refine ⟨ha, hl, by simpa using ho, ?_, ?_, ?_, ?_⟩
  · intro j hjlt
    have := hj j hjlt
    simp only [Nat.zero_add] at this
    rw [requestWithBackoff, this]
    exact ⟨le_max_left _ _, le_max_right _ _⟩
  · rw [hunf]
  · rw [hunf]
  · rw [hunf]

/-- Witness for **C3**: every response is `429` with `Retry-After: 2`; the
"other" response is a plain `500`. -/
theorem C3_throttling_retry_policy_witness :
    (requestWithBackoff (fun _ => ⟨429, some "2"⟩)).attempts = 8
    ∧ (requestWithBackoff (fun _ => ⟨429, some "2"⟩)).retrySleeps.length = 8
    ∧ (requestWithBackoff (fun _ => ⟨429, some "2"⟩)).outcome
        = ReqOutcome.httpError ((fun _ => ⟨429, some "2"⟩ : Nat → Resp) 7)
    ∧ (∀ j, j < 8 →
        (fun _ => (2 : Int)) j
            ≤ (requestWithBackoff (fun _ => ⟨429, some "2"⟩)).retrySleeps.getD j 0
        ∧ 1 ≤ (requestWithBackoff (fun _ => ⟨429, some "2"⟩)).retrySleeps.getD j 0)
    ∧ (requestWithBackoff (fun _ => ⟨500, none⟩)).attempts = 1
    ∧ (requestWithBackoff (fun _ => ⟨500, none⟩)).retrySleeps = []
    ∧ (requestWithBackoff (fun _ => ⟨500, none⟩)).outcome
        = ReqOutcome.httpError ((fun _ => ⟨500, none⟩ : Nat → Resp) 0) :=
  C3_throttling_retry_policy (fun _ => ⟨429, some "2"⟩) (fun _ => ⟨500, none⟩)
    (fun _ => 2) (fun _ => rfl)
    (fun _ => (by decide : pyInt ((some "2" : Option String).getD "1") = some 2))
    (by decide) (by decide)

/-- **C4, counterexample**: an unparseable `Retry-After` header does NOT
fall back to 1 second — `int("abc")` raises `ValueError`, so the call aborts
after a single attempt with no retry sleep; moreover the delay for a
parseable header is not the raw server value but its clamp `max(value, 1)`:
`Retry-After: 0` sleeps 1 second, not 0. -/
theorem C4_counterexample :
    (requestWithBackoff (fun _ => ⟨429, some "abc"⟩)).outcome = ReqOutcome.valueError
    ∧ (requestWithBackoff (fun _ => ⟨429, some "abc"⟩)).attempts = 1
    ∧ (requestWithBackoff (fun _ => ⟨429, some "abc"⟩)).retrySleeps = []
    ∧ (requestWithBackoff (fun _ => ⟨429, some "0"⟩)).retrySleeps.getD 0 0 = 1 := by
  decide

/-- **C4, amended**: on a 429 response the retry delay is
`max(int(Retry-After), 1)` when the header parses as an integer, and 1
second when the header is absent (the default string `"1"`); an unparseable
header raises `ValueError`, terminating the request after that attempt with
no retry sleep (no fallback). -/
theorem C4_amended_retry_delay (resps : Nat → Resp) (i rem : Nat) (hrem : 0 < rem)
    (h429 : (resps i).status = 429) :
    (∀ n, pyInt ((resps i).retryAfter.getD "1") = some n →
        (backoffGo resps i rem).retrySleeps.getD 0 0 = max n 1
        ∧ n ≤ (backoffGo resps i rem).retrySleeps.getD 0 0
        ∧ 1 ≤ (backoffGo resps i rem).retrySleeps.getD 0 0)
    ∧ ((resps i).retryAfter = none → (backoffGo resps i rem).retrySleeps.getD 0 0 = 1)
    ∧ (pyInt ((resps i).retryAfter.getD "1") = none →
        (backoffGo resps i rem).outcome = ReqOutcome.valueError
        ∧ (backoffGo resps i rem).attempts = 1
        ∧ (backoffGo resps i rem).retrySleeps = []) := by
  obtain ⟨rem', rfl⟩ : ∃ rem', rem = rem' + 1 := ⟨rem - 1, by omega⟩
  have hs : ¬ (resps i).status ≠ 429 := by simp [h429]
  refine ⟨?_, ?_, ?_⟩
  · intro n hn
    rw [backoffGo_succ_eq, if_neg hs, hn]
    match rem' with
    | 0 => exact ⟨rfl, le_max_left _ _, le_max_right _ _⟩
    | rem'' + 1 => exact ⟨rfl, le_max_left _ _, le_max_right _ _⟩
  · intro hnone
    have h1 : pyInt ((resps i).retryAfter.getD "1") = some 1 := by
      rw [hnone]; decide
    rw [backoffGo_succ_eq, if_neg hs, h1]
    match rem' with
    | 0 => rfl
    | rem'' + 1 => rfl
  · intro hnoparse
    rw [backoffGo_succ_eq, if_neg hs, hnoparse]
    exact ⟨rfl, rfl, rfl⟩

/-- Witness for **C4 (amended)** with `Retry-After: 5` on every response. -/
theorem C4_amended_retry_delay_witness :
    (∀ n, pyInt (((fun _ => ⟨429, some "5"⟩ : Nat → Resp) 0).retryAfter.getD "1") = some n →
        (backoffGo (fun _ => ⟨429, some "5"⟩) 0 8).retrySleeps.getD 0 0 = max n 1
        ∧ n ≤ (backoffGo (fun _ => ⟨429, some "5"⟩) 0 8).retrySleeps.getD 0 0
        ∧ 1 ≤ (backoffGo (fun _ => ⟨429, some "5"⟩) 0 8).retrySleeps.getD 0 0)
    ∧ (((fun _ => ⟨429, some "5"⟩ : Nat → Resp) 0).retryAfter = none →
        (backoffGo (fun _ => ⟨429, some "5"⟩) 0 8).retrySleeps.getD 0 0 = 1)
    ∧ (pyInt (((fun _ => ⟨429, some "5"⟩ : Nat → Resp) 0).retryAfter.getD "1") = none →
        (backoffGo (fun _ => ⟨429, some "5"⟩) 0 8).outcome = ReqOutcome.valueError
        ∧ (backoffGo (fun _ => ⟨429, some "5"⟩) 0 8).attempts = 1
        ∧ (backoffGo (fun _ => ⟨429, some "5"⟩) 0 8).retrySleeps = []) :=
  C4_amended_retry_delay (fun _ => ⟨429, some "5"⟩) 0 8 (by decide) rfl

theorem chunkFuel_length10 :
    ∀ (f : Nat) (l : List α), l.length ≤ f →
      (chunkFuel f l 10).length = (l.length + 9) / 10 := by
  intro f
  induction f with
  | zero =>
    intro l hl
    have : l = [] := List.eq_nil_of_length_eq_zero (Nat.le_zero.mp hl)
    subst this
    simp [chunkFuel]
  | succ f ih =>
    intro l hl
    match l with
    | [] => simp [chunkFuel]
    | a :: as =>
      have hdrop : (as.drop 9).length ≤ f := by
        have h1 : as.length ≤ f := Nat.lt_succ_iff.mp hl
        calc (as.drop 9).length = as.length - 9 := List.length_drop 9 as
          _ ≤ as.length := Nat.sub_le _ _
          _ ≤ f := h1
      show ((a :: as.take 9) :: chunkFuel f (as.drop 9) 10).length = _
      rw [List.length_cons, ih _ hdrop, List.length_drop, List.length_cons]
      omega

/-- **C6**: for `M` input record identifiers the archival mutator issues
exactly `⌈M/10⌉` PATCH calls; every batch is non-empty with at most 10
entries, every entry of every batch carries the identical archived-at
timestamp, the run tag, and the same single-element run-identifier link
list; the batches cover the identifiers in order, and an empty identifier
list issues no request at all. -/
theorem C6_archival_batching (ids : List String) (runId tag now : String)
    (b : List (String × ArchiveFields))
    (hb : b ∈ patch_records_archived ids runId tag now) :
    (patch_records_archived ids runId tag now).length = (ids.length + 9) / 10
    ∧ b ≠ [] ∧ b.length ≤ 10
    ∧ (∀ e ∈ b, e.2.archived = true ∧ e.2.archivedAt = now
        ∧ e.2.archiveBatch = tag ∧ e.2.exportRunLink = [runId])
    ∧ ((patch_records_archived ids runId tag now).map (fun bb => bb.map Prod.fst)).flatten
        = ids
    ∧ patch_records_archived [] runId tag now = [] := by
  by_cases hids : ids = []
  · subst hids
    simp [patch_records_archived] at hb
  · unfold patch_records_archived
    rw [if_neg hids]
    unfold patch_records_archived at hb
    rw [if_neg hids] at hb
    obtain ⟨part, hpart, rfl⟩ := List.mem_map.mp hb
    obtain ⟨hne, hlen⟩ := chunk_mem ids 10 part hpart
    refine ⟨?_, by simpa using hne, by simpa using hlen, ?_, ?_,
      by simp [patch_records_archived]⟩
    · rw [List.length_map]
      exact chunkFuel_length10 _ _ (Nat.le_refl _)
    · intro e he
      obtain ⟨rid, -, rfl⟩ := List.mem_map.mp he
      exact ⟨rfl, rfl, rfl, rfl⟩
    · rw [List.map_map]
      have hmapped : (chunk ids 10).map
            ((fun bb : List (String × ArchiveFields) => bb.map Prod.fst) ∘
              fun part : List String => part.map
                (fun rid => (rid, (⟨true, now, tag, [runId]⟩ : ArchiveFields))))
          = (chunk ids 10).map (fun part => part) :=
        List.map_congr_left (fun part _ => by
          have hcomp : (Prod.fst ∘ fun rid : String =>
              (rid, (⟨true, now, tag, [runId]⟩ : ArchiveFields))) = fun rid => rid := by
            funext rid
            rfl
          simp only [Function.comp_apply]
          rw [List.map_map, hcomp]
          simp)
      rw [hmapped]
      have hid : (chunk ids 10).map (fun part => part) = chunk ids 10 := List.map_id' _
      rw [hid]
      exact chunk_flatten ids 10 (by decide)

/-- Witness for **C6** at two identifiers forming one batch. -/
theorem C6_archival_batching_witness :
    (patch_records_archived ["r1", "r2"] "run0" "02:2026" "t0").length
        = ((["r1", "r2"] : List String).length + 9) / 10
    ∧ [("r1", (⟨true, "t0", "02:2026", ["run0"]⟩ : ArchiveFields)),
        ("r2", (⟨true, "t0", "02:2026", ["run0"]⟩ : ArchiveFields))] ≠ []
    ∧ ([("r1", (⟨true, "t0", "02:2026", ["run0"]⟩ : ArchiveFields)),
        ("r2", (⟨true, "t0", "02:2026", ["run0"]⟩ : ArchiveFields))] :
          List (String × ArchiveFields)).length ≤ 10
    ∧ (∀ e ∈ ([("r1", (⟨true, "t0", "02:2026", ["run0"]⟩ : ArchiveFields)),
        ("r2", (⟨true, "t0", "02:2026", ["run0"]⟩ : ArchiveFields))] :
          List (String × ArchiveFields)),
        e.2.archived = true ∧ e.2.archivedAt = "t0"
        ∧ e.2.archiveBatch = "02:2026" ∧ e.2.exportRunLink = ["run0"])
    ∧ ((patch_records_archived ["r1", "r2"] "run0" "02:2026" "t0").map
        (fun bb => bb.map Prod.fst)).flatten = ["r1", "r2"]
    ∧ patch_records_archived [] "run0" "02:2026" "t0" = [] :=
  C6_archival_batching ["r1", "r2"] "run0" "02:2026" "t0"
    [("r1", ⟨true, "t0", "02:2026", ["run0"]⟩), ("r2", ⟨true, "t0", "02:2026", ["run0"]⟩)]
    (by decide)

end ArchiveCycle

/-! ### Timestamp formatting and the calorie badge (`build_report_html`) -/

namespace ReportHtml

theorem digitVal_digitChar (n : Nat) (h : n ≤ 9) : digitVal (digitChar n) = some n := by
  interval_cases n <;> decide

theorem toList_append (a b : String) : (a ++ b).toList = a.toList ++ b.toList :=
  String.data_append a b

theorem parse2or1_pad2 (lo2 hi2 : Nat) (b1 : Bool) (v : Nat)
    (h1 : lo2 ≤ v) (h2 : v ≤ hi2) (h99 : v ≤ 99) (rest : List Char) :
    parse2or1 lo2 hi2 b1 ((pad2 v).toList ++ rest) = some (v, rest) := by
  have hv10 : v / 10 ≤ 9 := by omega
  have hv1 : v % 10 ≤ 9 := by omega
  show parse2or1 lo2 hi2 b1 (digitChar (v / 10) :: digitChar (v % 10) :: rest)
      = some (v, rest)
  simp only [parse2or1, digitVal_digitChar _ hv10, digitVal_digitChar _ hv1]
  have hv : 10 * (v / 10) + v % 10 = v := by omega
  rw [hv, if_pos ⟨h1, h2⟩]

theorem parse2or1_pad2_nil (lo2 hi2 : Nat) (b1 : Bool) (v : Nat)
    (h1 : lo2 ≤ v) (h2 : v ≤ hi2) (h99 : v ≤ 99) :
    parse2or1 lo2 hi2 b1 (pad2 v).toList = some (v, []) := by
  have := parse2or1_pad2 lo2 hi2 b1 v h1 h2 h99 []
  simpa using this

theorem parse4digits_pad4 (y : Nat) (hy : y ≤ 9999) (rest : List Char) :
    parse4digits ((pad4 y).toList ++ rest) = some (y, rest) := by
  have a1 : y / 1000 ≤ 9 := by omega
  have a2 : y / 100 % 10 ≤ 9 := by omega
  have a3 : y / 10 % 10 ≤ 9 := by omega
  have a4 : y % 10 ≤ 9 := by omega
  show parse4digits (digitChar (y / 1000) :: digitChar (y / 100 % 10)
      :: digitChar (y / 10 % 10) :: digitChar (y % 10) :: rest) = some (y, rest)
  simp only [parse4digits, digitVal_digitChar _ a1, digitVal_digitChar _ a2,
    digitVal_digitChar _ a3, digitVal_digitChar _ a4]
  have hv : ((y / 1000 * 10 + y / 100 % 10) * 10 + y / 10 % 10) * 10 + y % 10 = y := by
    omega
  rw [hv]

theorem expectChar_cons (c : Char) (rest : List Char) :
    expectChar c (c :: rest) = some rest := by
  simp [expectChar]

theorem daysInMonth_le (y mo : Nat) : daysInMonth y mo ≤ 31 := by
  unfold daysInMonth
  split
  · split <;> omega
  · split <;> omega

theorem parseYmdHm_pad (y mo d h mi : Nat) (hy1 : 1 ≤ y) (hy2 : y ≤ 9999)
    (hmo1 : 1 ≤ mo) (hmo2 : mo ≤ 12) (hd1 : 1 ≤ d) (hd2 : d ≤ daysInMonth y mo)
    (hh : h ≤ 23) (hmi : mi ≤ 59) :
    parseYmdHm (pad4 y ++ "-" ++ pad2 mo ++ "-" ++ pad2 d ++ " " ++ pad2 h ++ ":" ++ pad2 mi)
      = some (y, mo, d, h, mi) := by
  have hdash : ("-" : String).toList = ['-'] := rfl
  have hsp : (" " : String).toList = [' '] := rfl
  have hcol : (":" : String).toList = [':'] := rfl
  have hlist : (pad4 y ++ "-" ++ pad2 mo ++ "-" ++ pad2 d ++ " " ++ pad2 h ++ ":"
        ++ pad2 mi).toList
      = (pad4 y).toList ++ ('-' :: ((pad2 mo).toList ++ ('-' :: ((pad2 d).toList
          ++ (' ' :: ((pad2 h).toList ++ (':' :: (pad2 mi).toList))))))) := by
    simp [toList_append, hdash, hsp, hcol]
  unfold parseYmdHm
  rw [hlist, parse4digits_pad4 y hy2]
  simp only [Option.bind_eq_bind, Option.some_bind, expectChar_cons,
    parse2or1_pad2 1 12 false mo hmo1 hmo2 (by omega),
    parse2or1_pad2 1 31 false d hd1 (le_trans hd2 (daysInMonth_le y mo))
      (le_trans (le_trans hd2 (daysInMonth_le y mo)) (by omega : (31 : Nat) ≤ 99)),
    parse2or1_pad2 0 23 true h (Nat.zero_le _) hh (by omega),
    parse2or1_pad2_nil 0 59 true mi (Nat.zero_le _) hmi (by omega)]
  simp [hy1, hd2]

theorem yearStr_eq_pad4 (y : Nat) (h1 : 1000 ≤ y) (h2 : y ≤ 9999) :
    yearStr y = pad4 y := by
  have hA : ¬ y < 10 := by omega
  have hB : ¬ y / 10 < 10 := by omega
  have hC : ¬ y / 10 / 10 < 10 := by omega
  have hD : y / 10 / 10 / 10 < 10 := by omega
  have e1 : y / 10 / 10 / 10 = y / 1000 := by omega
  have e2 : y / 10 / 10 % 10 = y / 100 % 10 := by omega
  unfold yearStr
  simp only [natDigitsFuel, hA, hB, hC, hD, if_false, if_true]
  simp [pad4, e1, e2]

/-- **C2, counterexample**: the formatter does NOT understand full ISO-8601
values with a `Z` suffix — `"2025-09-26T08:30:00.000Z"` is returned
unchanged, not rendered as `"26.09.2025 08:30"` as the claim states. -/
theorem C2_counterexample :
    fmt_dt_ddmmyyyy "2025-09-26T08:30:00.000Z" = "2025-09-26T08:30:00.000Z"
    ∧ fmt_dt_ddmmyyyy "2025-09-26T08:30:00.000Z" ≠ "26.09.2025 08:30" := by
  decide

/-- **C2, amended**: the meal-timestamp formatter maps a zero-padded
`YYYY-MM-DD HH:MM` value (four-digit year, valid calendar day) to
`DD.MM.YYYY HH:MM`; any value not of that form — including a full ISO-8601
value with a `Z` suffix such as `"2025-09-26T08:30:00.000Z"`, and
`"not-a-date"` — is returned unchanged. -/
theorem C2_amended_timestamp_format (y mo d h mi : Nat) (hy1 : 1000 ≤ y) (hy2 : y ≤ 9999)
    (hmo1 : 1 ≤ mo) (hmo2 : mo ≤ 12) (hd1 : 1 ≤ d) (hd2 : d ≤ daysInMonth y mo)
    (hh : h ≤ 23) (hmi : mi ≤ 59) :
    fmt_dt_ddmmyyyy (pad4 y ++ "-" ++ pad2 mo ++ "-" ++ pad2 d ++ " " ++ pad2 h ++ ":"
        ++ pad2 mi)
      = pad2 d ++ "." ++ pad2 mo ++ "." ++ pad4 y ++ " " ++ pad2 h ++ ":" ++ pad2 mi
    ∧ fmt_dt_ddmmyyyy "2025-09-26T08:30:00.000Z" = "2025-09-26T08:30:00.000Z"
    ∧ fmt_dt_ddmmyyyy "not-a-date" = "not-a-date" := by
  refine ⟨?_, by decide, by decide⟩
  have hparse := parseYmdHm_pad y mo d h mi (by omega) hy2 hmo1 hmo2 hd1 hd2 hh hmi
  have hne : (pad4 y ++ "-" ++ pad2 mo ++ "-" ++ pad2 d ++ " " ++ pad2 h ++ ":"
      ++ pad2 mi) ≠ "" := by
    intro hcontra
    have htl := congrArg String.toList hcontra
    simp [toList_append, pad4] at htl
  unfold fmt_dt_ddmmyyyy
  rw [if_neg hne]
  simp only [hparse]
  rw [yearStr_eq_pad4 y hy1 hy2]

/-- Witness for **C2 (amended)** at `2025-09-26 08:30`. -/
theorem C2_amended_timestamp_format_witness :
    fmt_dt_ddmmyyyy (pad4 2025 ++ "-" ++ pad2 9 ++ "-" ++ pad2 26 ++ " " ++ pad2 8 ++ ":"
        ++ pad2 30)
      = pad2 26 ++ "." ++ pad2 9 ++ "." ++ pad4 2025 ++ " " ++ pad2 8 ++ ":" ++ pad2 30
    ∧ fmt_dt_ddmmyyyy "2025-09-26T08:30:00.000Z" = "2025-09-26T08:30:00.000Z"
    ∧ fmt_dt_ddmmyyyy "not-a-date" = "not-a-date" :=
  C2_amended_timestamp_format 2025 9 26 8 30 (by decide) (by decide) (by decide)
    (by decide) (by decide) (by decide) (by decide) (by decide)

theorem pyFloat_2100 : pyFloat "2100" = some 2100 := by
  have h : pyFloatParse "2100" = some (2100, 0) := by decide
  unfold pyFloat
  rw [h]
  norm_num

theorem pyFloat_2000 : pyFloat "2000" = some 2000 := by
  have h : pyFloatParse "2000" = some (2000, 0) := by decide
  unfold pyFloat
  rw [h]
  norm_num

theorem pyFloat_1800 : pyFloat "1800" = some 1800 := by
  have h : pyFloatParse "1800" = some (1800, 0) := by decide
  unfold pyFloat
  rw [h]
  norm_num

/-- **C8**: the calorie badge class is chosen by the ratio of actual to
target calories: ratio ≤ 1.05 gives `"badge badge-ok"`, 1.05 < ratio gives
`"badge badge-warn"` (the ≤ 1.15 and > 1.15 tiers return the same class),
target ≤ 0 or a non-numeric input gives the neutral `"badge"`; in particular
`"2100"`/`"2000"` (ratio exactly 1.05) is on target and `"2100"`/`"1800"` is
the warning class. -/
theorem C8_kcal_badge_ratio_tiers (fact target : String) (f t : ℚ)
    (hf : pyFloat fact = some f) (ht : pyFloat target = some t) :
    (t ≤ 0 → kcal_badge fact target = "badge")
    ∧ (0 < t → f / t ≤ 1.05 → kcal_badge fact target = "badge badge-ok")
    ∧ (0 < t → 1.05 < f / t → kcal_badge fact target = "badge badge-warn")
    ∧ (∀ g, pyFloat g = none → kcal_badge g target = "badge" ∧ kcal_badge fact g = "badge")
    ∧ kcal_badge "2100" "2000" = "badge badge-ok"
    ∧ kcal_badge "2100" "1800" = "badge badge-warn" := by
  have hmain : kcal_badge fact target
      = if t ≤ 0 then "badge"
        else if f / t ≤ 1.05 then "badge badge-ok"
        else if f / t ≤ 1.15 then "badge badge-warn"
        else "badge badge-warn" := by
    unfold kcal_badge
    rw [hf, ht]
  refine ⟨?_, ?_, ?_, ?_, ?_, ?_⟩
  · intro h0
    rw [hmain, if_pos h0]
  · intro hpos hle
    rw [hmain, if_neg (not_le.mpr hpos), if_pos hle]
  · intro hpos hgt
    rw [hmain, if_neg (not_le.mpr hpos), if_neg (not_le.mpr hgt)]
    by_cases h15 : f / t ≤ 1.15
    · rw [if_pos h15]
    · rw [if_neg h15]
  · intro g hg
    constructor
    · unfold kcal_badge
      rw [hg, ht]
    · unfold kcal_badge
      rw [hf, hg]
  · unfold kcal_badge
    rw [pyFloat_2100, pyFloat_2000]
    norm_num
  · unfold kcal_badge
    rw [pyFloat_2100, pyFloat_1800]
    norm_num

/-! #### CSV round trip (claim C7) -/

theorem mk_toList (s : String) : String.mk s.toList = s := rfl

theorem takeWhile_append_all (p : Char → Bool) (l1 l2 : List Char)
    (h : ∀ c ∈ l1, p c) :
    (l1 ++ l2).takeWhile p = l1 ++ l2.takeWhile p := by
  induction l1 with
  | nil => simp
  | cons c t ih =>
    rw [List.cons_append, List.takeWhile_cons_of_pos (h c (by simp)),
      ih (fun c hc => h c (by simp [hc]))]
    rfl

theorem dropWhile_append_all (p : Char → Bool) (l1 l2 : List Char)
    (h : ∀ c ∈ l1, p c) :
    (l1 ++ l2).dropWhile p = l2.dropWhile p := by
  induction l1 with
  | nil => simp
  | cons c t ih =>
    rw [List.cons_append, List.dropWhile_cons_of_pos (h c (by simp))]
    exact ih (fun c hc => h c (by simp [hc]))

theorem zip_self_map (l : List String) (g : String → String) :
    l.zip (l.map g) = l.map (fun a => (a, g a)) := by
  have := List.zip_map' id g l
  simpa using this

theorem parseQuotedTail_escape :
    ∀ (s rest : List Char), rest.head? ≠ some '"' →
      parseQuotedTail (ArchiveCycle.escapeQuotes s ++ '"' :: rest)
        = some (s, rest) := by
  intro s
  induction s with
  | nil =>
    intro rest hrest
    show parseQuotedTail ('"' :: rest) = some ([], rest)
    rw [parseQuotedTail]
    rw [if_pos rfl, if_neg hrest]
  | cons c s' ih =>
    intro rest hrest
    by_cases hc : c = '"'
    · subst hc
      have hesc : ArchiveCycle.escapeQuotes ('"' :: s')
          = '"' :: '"' :: ArchiveCycle.escapeQuotes s' := by
        simp [ArchiveCycle.escapeQuotes]
      rw [hesc, List.cons_append, List.cons_append]
      simp [parseQuotedTail, ih rest hrest]
    · have hesc : ArchiveCycle.escapeQuotes (c :: s')
          = c :: ArchiveCycle.escapeQuotes s' := by
        simp [ArchiveCycle.escapeQuotes, hc]
      rw [hesc, List.cons_append]
      simp [parseQuotedTail, hc, ih rest hrest]

/-- A context in which a cell may legally end: end of input, or a separator
character next. -/
def SepRest (rest : List Char) : Prop :=
  rest = [] ∨ ∃ c r', rest = c :: r' ∧ (c = ',' ∨ c = '\r' ∨ c = '\n')

theorem SepRest.head_ne_quote {rest : List Char} (h : SepRest rest) :
    rest.head? ≠ some '"' := by
  rcases h with rfl | ⟨c, r', rfl, hc⟩
  · simp
  · rcases hc with rfl | rfl | rfl <;> simp

theorem notNeedsQuote_chars {s : String} (hq : ¬ ArchiveCycle.needsQuote s) :
    ∀ c ∈ s.toList, c ≠ ',' ∧ c ≠ '"' ∧ c ≠ '\r' ∧ c ≠ '\n' := by
  intro c hc
  have : ¬ (c = ',' || c = '"' || c = '\r' || c = '\n') := by
    intro hcon
    exact hq (List.any_eq_true.mpr ⟨c, hc, hcon⟩)
  simp only [Bool.or_eq_true, decide_eq_true_eq] at this
  push_neg at this
  exact ⟨this.1.1.1, this.1.1.2, this.1.2, this.2⟩

theorem parseCell_encode (s : String) (rest : List Char) (hrest : SepRest rest) :
    parseCell ((ArchiveCycle.encodeCell s).toList ++ rest) = some (s, rest) := by
  by_cases hq : ArchiveCycle.needsQuote s
  · have henc : (ArchiveCycle.encodeCell s).toList
        = '"' :: (ArchiveCycle.escapeQuotes s.toList ++ ['"']) := by
      unfold ArchiveCycle.encodeCell
      rw [if_pos hq]
      rfl
    rw [henc, List.cons_append, List.append_assoc, List.singleton_append]
    show (match parseQuotedTail (ArchiveCycle.escapeQuotes s.toList ++ '"' :: rest) with
        | Option.some (f, r) => Option.some (String.mk f, r)
        | Option.none => Option.none) = some (s, rest)
    rw [parseQuotedTail_escape s.toList rest hrest.head_ne_quote]
    rfl
  · have hchars := notNeedsQuote_chars hq
    have henc : ArchiveCycle.encodeCell s = s := by
      unfold ArchiveCycle.encodeCell
      rw [if_neg hq]
    rw [henc]
    have hnotSepS : ∀ c ∈ s.toList, notSep c := by
      intro c hc
      obtain ⟨h1, -, h3, h4⟩ := hchars c hc
      simp [notSep, h1, h3, h4]
    have hrestTake : rest.takeWhile notSep = [] := by
      rcases hrest with rfl | ⟨c, r', rfl, hc⟩
      · rfl
      · refine List.takeWhile_cons_of_neg ?_
        rcases hc with rfl | rfl | rfl <;> simp [notSep]
    have hrestDrop : rest.dropWhile notSep = rest := by
      rcases hrest with rfl | ⟨c, r', rfl, hc⟩
      · rfl
      · refine List.dropWhile_cons_of_neg ?_
        rcases hc with rfl | rfl | rfl <;> simp [notSep]
    cases hs : s.toList with
    | nil =>
      have hsempty : s = "" := by
        have := congrArg String.mk hs
        rwa [mk_toList] at this
      subst hsempty
      rcases hrest with rfl | ⟨c, r', rfl, hc⟩
      · rfl
      · have hcq : ¬ c = '"' := by rcases hc with rfl | rfl | rfl <;> simp
        simp only [List.nil_append]
        show parseCell (c :: r') = some ("", c :: r')
        have ht : (c :: r').takeWhile notSep = [] := hrestTake
        have hd : (c :: r').dropWhile notSep = c :: r' := hrestDrop
        simp [parseCell, hcq, ht, hd]
    | cons c0 t0 =>
      have hc0 : ¬ c0 = '"' := (hchars c0 (by rw [hs]; simp)).2.1
      have htake : (s.toList ++ rest).takeWhile notSep = s.toList := by
        rw [takeWhile_append_all _ _ _ hnotSepS, hrestTake, List.append_nil]
      have hdrop : (s.toList ++ rest).dropWhile notSep = rest := by
        rw [dropWhile_append_all _ _ _ hnotSepS, hrestDrop]
      rw [List.cons_append]
      simp only [parseCell]
      rw [if_neg hc0, ← List.cons_append, ← hs, htake, hdrop, mk_toList]

theorem parseRowFuel_encodeRowCells :
    ∀ (cells : List String) (tail : List Char) (fuel : Nat), cells ≠ [] →
      cells.length ≤ fuel →
      parseRowFuel fuel ((ArchiveCycle.encodeRowCells cells).toList ++ '\r' :: '\n' :: tail)
        = some (cells, tail) := by
  intro cells
  induction cells with
  | nil => intro _ _ h _; exact absurd rfl h
  | cons c cs ih =>
    intro tail fuel _ hfuel
    have hf1 : 0 < fuel := by
      simp only [List.length_cons] at hfuel
      omega
    obtain ⟨f, rfl⟩ : ∃ f, fuel = f + 1 := ⟨fuel - 1, by omega⟩
    cases cs with
    | nil =>
      have henc : ArchiveCycle.encodeRowCells [c] = ArchiveCycle.encodeCell c := rfl
      rw [henc]
      have hcell := parseCell_encode c ('\r' :: '\n' :: tail)
        (Or.inr ⟨'\r', '\n' :: tail, rfl, Or.inr (Or.inl rfl)⟩)
      rw [parseRowFuel, hcell]
      rfl
    | cons c2 cs' =>
      have henc : ArchiveCycle.encodeRowCells (c :: c2 :: cs')
          = ArchiveCycle.encodeCell c ++ "," ++ ArchiveCycle.encodeRowCells (c2 :: cs') :=
        rfl
      have hlist : (ArchiveCycle.encodeRowCells (c :: c2 :: cs')).toList
            ++ '\r' :: '\n' :: tail
          = (ArchiveCycle.encodeCell c).toList
            ++ ',' :: ((ArchiveCycle.encodeRowCells (c2 :: cs')).toList
              ++ '\r' :: '\n' :: tail) := by
        rw [henc, toList_append, toList_append]
        simp
      rw [hlist]
      have hcell := parseCell_encode c
        (',' :: ((ArchiveCycle.encodeRowCells (c2 :: cs')).toList ++ '\r' :: '\n' :: tail))
        (Or.inr ⟨',', _, rfl, Or.inl rfl⟩)
      have hrec := ih tail f (by simp) (by
        simp only [List.length_cons] at hfuel ⊢
        omega)
      have hrec2 : parseRowFuel f ((ArchiveCycle.encodeRowCells (c2 :: cs')).data
          ++ '\r' :: '\n' :: tail) = some (c2 :: cs', tail) := hrec
      rw [parseRowFuel, hcell]
      simp [hrec2]

theorem parseRowFuel_encodeRow (cells : List String) (tail : List Char) (fuel : Nat)
    (hne : cells ≠ []) (hfuel : cells.length ≤ fuel) :
    parseRowFuel fuel ((ArchiveCycle.encodeRow cells).toList ++ '\r' :: '\n' :: tail)
      = some (cells, tail) := by
  match cells with
  | [c] =>
    by_cases hc : c = ""
    · subst hc
      have hf1 : 0 < fuel := by
        simp only [List.length_cons, List.length_nil] at hfuel
        omega
      obtain ⟨f, rfl⟩ : ∃ f, fuel = f + 1 := ⟨fuel - 1, by omega⟩
      have henc : (ArchiveCycle.encodeRow [""]).toList = ['"', '"'] := rfl
      have hqt : parseQuotedTail ('"' :: ('\r' :: '\n' :: tail))
          = some ([], '\r' :: '\n' :: tail) := by
        rw [parseQuotedTail, if_pos rfl, if_neg (by simp)]
      have hcell : parseCell ('"' :: ('"' :: ('\r' :: '\n' :: tail)))
          = some ("", '\r' :: '\n' :: tail) := by
        show (match parseQuotedTail ('"' :: ('\r' :: '\n' :: tail)) with
            | Option.some (f, r) => Option.some (String.mk f, r)
            | Option.none => Option.none) = some ("", '\r' :: '\n' :: tail)
        rw [hqt]
      rw [henc]
      show parseRowFuel (f + 1) ('"' :: ('"' :: ('\r' :: '\n' :: tail))) = some ([""], tail)
      rw [parseRowFuel, hcell]
      rfl
    · have henc : ArchiveCycle.encodeRow [c] = ArchiveCycle.encodeRowCells [c] := by
        show (if c = "" then "\"\"" else ArchiveCycle.encodeCell c)
            = ArchiveCycle.encodeRowCells [c]
        rw [if_neg hc]
        rfl
      rw [henc]
      exact parseRowFuel_encodeRowCells [c] tail fuel hne hfuel
  | c :: c2 :: cs =>
    have henc : ArchiveCycle.encodeRow (c :: c2 :: cs)
        = ArchiveCycle.encodeRowCells (c :: c2 :: cs) := rfl
    rw [henc]
    exact parseRowFuel_encodeRowCells (c :: c2 :: cs) tail fuel hne hfuel

theorem encodeCell_head (s : String) (ch : Char) (t : List Char)
    (h : (ArchiveCycle.encodeCell s).toList = ch :: t) : ch ≠ '\r' ∧ ch ≠ '\n' := by
  by_cases hq : ArchiveCycle.needsQuote s
  · have henc : (ArchiveCycle.encodeCell s).toList
        = '"' :: (ArchiveCycle.escapeQuotes s.toList ++ ['"']) := by
      unfold ArchiveCycle.encodeCell
      rw [if_pos hq]
      rfl
    rw [henc] at h
    cases h
    exact ⟨by decide, by decide⟩
  · have henc : ArchiveCycle.encodeCell s = s := by
      unfold ArchiveCycle.encodeCell
      rw [if_neg hq]
    rw [henc] at h
    have hmem : ch ∈ s.toList := by rw [h]; simp
    obtain ⟨-, -, h3, h4⟩ := notNeedsQuote_chars hq ch hmem
    exact ⟨h3, h4⟩

theorem encodeCell_toList_ne_nil (s : String) (hs : s ≠ "") :
    (ArchiveCycle.encodeCell s).toList ≠ [] := by
  by_cases hq : ArchiveCycle.needsQuote s
  · have henc : (ArchiveCycle.encodeCell s).toList
        = '"' :: (ArchiveCycle.escapeQuotes s.toList ++ ['"']) := by
      unfold ArchiveCycle.encodeCell
      rw [if_pos hq]
      rfl
    rw [henc]
    simp
  · have henc : ArchiveCycle.encodeCell s = s := by
      unfold ArchiveCycle.encodeCell
      rw [if_neg hq]
    rw [henc]
    intro hcon
    exact hs (by rw [← mk_toList s, hcon])

theorem encodeRow_head (cells : List String) (hne : cells ≠ []) :
    ∃ ch t, (ArchiveCycle.encodeRow cells).toList = ch :: t ∧ ch ≠ '\r' ∧ ch ≠ '\n' := by
  match cells with
  | [c] =>
    by_cases hc : c = ""
    · subst hc
      exact ⟨'"', ['"'], rfl, by decide, by decide⟩
    · have henc : ArchiveCycle.encodeRow [c] = ArchiveCycle.encodeRowCells [c] := by
        show (if c = "" then "\"\"" else ArchiveCycle.encodeCell c)
            = ArchiveCycle.encodeRowCells [c]
        rw [if_neg hc]
        rfl
      rw [henc]
      cases hcl : (ArchiveCycle.encodeCell c).toList with
      | nil => exact absurd hcl (encodeCell_toList_ne_nil c hc)
      | cons ch t =>
        have : (ArchiveCycle.encodeRowCells [c]).toList = ch :: t := hcl
        exact ⟨ch, t, this, encodeCell_head c ch t hcl⟩
  | c :: c2 :: cs =>
    have henc : (ArchiveCycle.encodeRowCells (c :: c2 :: cs)).toList
        = (ArchiveCycle.encodeCell c).toList
          ++ ',' :: (ArchiveCycle.encodeRowCells (c2 :: cs)).toList := by
      show (ArchiveCycle.encodeCell c ++ "," ++ ArchiveCycle.encodeRowCells (c2 :: cs)).toList
          = _
      rw [toList_append, toList_append]
      simp
    cases hcl : (ArchiveCycle.encodeCell c).toList with
    | nil =>
      refine ⟨',', (ArchiveCycle.encodeRowCells (c2 :: cs)).toList, ?_, by decide, by decide⟩
      show (ArchiveCycle.encodeRowCells (c :: c2 :: cs)).toList = _
      rw [henc, hcl]
      rfl
    | cons ch t =>
      refine ⟨ch, t ++ ',' :: (ArchiveCycle.encodeRowCells (c2 :: cs)).toList, ?_,
        (encodeCell_head c ch t hcl).1, (encodeCell_head c ch t hcl).2⟩
      show (ArchiveCycle.encodeRowCells (c :: c2 :: cs)).toList = _
      rw [henc, hcl]
      rfl

theorem encodeRowCells_length_ge (cells : List String) :
    cells.length ≤ (ArchiveCycle.encodeRowCells cells).toList.length + 1 := by
  induction cells with
  | nil => simp
  | cons c cs ih =>
    cases cs with
    | nil => simp
    | cons c2 cs' =>
      have henc : (ArchiveCycle.encodeRowCells (c :: c2 :: cs')).toList
          = (ArchiveCycle.encodeCell c).toList
            ++ ',' :: (ArchiveCycle.encodeRowCells (c2 :: cs')).toList := by
        show (ArchiveCycle.encodeCell c ++ ","
            ++ ArchiveCycle.encodeRowCells (c2 :: cs')).toList = _
        rw [toList_append, toList_append]
        simp
      rw [henc]
      simp only [List.length_cons, List.length_append] at ih ⊢
      omega

theorem encodeRow_length_ge (cells : List String) :
    cells.length ≤ (ArchiveCycle.encodeRow cells).toList.length + 1 := by
  match cells with
  | [] => simp [ArchiveCycle.encodeRow, ArchiveCycle.encodeRowCells]
  | [c] =>
    by_cases hc : c = ""
    · subst hc
      decide
    · have henc : ArchiveCycle.encodeRow [c] = ArchiveCycle.encodeRowCells [c] := by
        show (if c = "" then "\"\"" else ArchiveCycle.encodeCell c)
            = ArchiveCycle.encodeRowCells [c]
        rw [if_neg hc]
        rfl
      rw [henc]
      exact encodeRowCells_length_ge [c]
  | c :: c2 :: cs =>
    exact encodeRowCells_length_ge (c :: c2 :: cs)

theorem csvLines_length_ge (rows : List (List String)) :
    rows.length ≤ (ArchiveCycle.csvLines rows).toList.length := by
  induction rows with
  | nil => simp [ArchiveCycle.csvLines]
  | cons r rest ih =>
    have henc : (ArchiveCycle.csvLines (r :: rest)).toList
        = (ArchiveCycle.encodeRow r).toList ++ '\r' :: '\n'
          :: (ArchiveCycle.csvLines rest).toList := by
      show (ArchiveCycle.encodeRow r ++ "\r\n" ++ ArchiveCycle.csvLines rest).toList = _
      rw [toList_append, toList_append]
      simp
    rw [List.length_cons, henc, List.length_append, List.length_cons, List.length_cons]
    omega

theorem parseRecordsFuel_csvLines :
    ∀ (rows : List (List String)) (fuel : Nat), (∀ r ∈ rows, r ≠ []) →
      rows.length < fuel →
      parseRecordsFuel fuel (ArchiveCycle.csvLines rows).toList = rows := by
  intro rows
  induction rows with
  | nil =>
    intro fuel _ hfuel
    obtain ⟨f, rfl⟩ : ∃ f, fuel = f + 1 := ⟨fuel - 1, by omega⟩
    rfl
  | cons row rest ih =>
    intro fuel hne hfuel
    obtain ⟨f, rfl⟩ : ∃ f, fuel = f + 1 := ⟨fuel - 1, by omega⟩
    have hrowne : row ≠ [] := hne row (by simp)
    obtain ⟨ch, t, hht, hch1, hch2⟩ := encodeRow_head row hrowne
    have hlist : (ArchiveCycle.csvLines (row :: rest)).toList
        = ch :: (t ++ '\r' :: '\n' :: (ArchiveCycle.csvLines rest).toList) := by
      show (ArchiveCycle.encodeRow row ++ "\r\n" ++ ArchiveCycle.csvLines rest).toList = _
      rw [toList_append, toList_append, hht]
      simp
    rw [hlist, parseRecordsFuel]
    rw [if_neg (fun hcon => hch1 hcon.1), if_neg hch2]
    have hrowlen : row.length
        ≤ (ch :: (t ++ '\r' :: '\n' :: (ArchiveCycle.csvLines rest).toList)).length + 1 := by
      have h1 := encodeRow_length_ge row
      rw [hht] at h1
      simp only [List.length_cons, List.length_append] at h1 ⊢
      omega
    have hrow := parseRowFuel_encodeRow row ((ArchiveCycle.csvLines rest).toList)
      ((ch :: (t ++ '\r' :: '\n' :: (ArchiveCycle.csvLines rest).toList)).length + 1)
      hrowne hrowlen
    have hrow2 : parseRowFuel
        ((ch :: (t ++ '\r' :: '\n' :: (ArchiveCycle.csvLines rest).toList)).length + 1)
        (ch :: (t ++ '\r' :: '\n' :: (ArchiveCycle.csvLines rest).toList))
        = some (row, (ArchiveCycle.csvLines rest).toList) := by
      rw [hht] at hrow
      simpa using hrow
    rw [hrow2]
    show row :: parseRecordsFuel f (ArchiveCycle.csvLines rest).toList = row :: rest
    rw [ih f (fun r hr => hne r (by simp [hr])) (by
      simp only [List.length_cons] at hfuel
      omega)]

/-- **C7, counterexample**: with a zero-column field list the round trip
FAILS — writing one record under `K = 0` produces a header-only blank-line
file whose `DictReader` read-back yields 0 rows, not `N = 1`. -/
theorem C7_counterexample :
    read_csv (ArchiveCycle.write_csv_utf8sig [] [⟨"recA", []⟩]) = []
    ∧ ([⟨"recA", []⟩] : List ArchiveCycle.ApiRec).length = 1 :=
  ⟨by decide, rfl⟩

/-- **C7, amended**: for every non-empty `K`-column field list and every
record list, writing with the CSV serializer and reading the text back
yields exactly the `N` records as rows, each carrying exactly the `K` named
columns in order, with each cell the field value after normalization
(lists join their elements' `str()` forms with `"; "`, dicts render via the
generic string conversion) and an absent field reading back as the empty
string. -/
theorem C7_amended_csv_round_trip (fields : List String)
    (records : List ArchiveCycle.ApiRec) (hK : fields ≠ []) :
    read_csv (ArchiveCycle.write_csv_utf8sig fields records)
      = records.map (fun rec => fields.map (fun col =>
          (col, ArchiveCycle.csvCellStr (ArchiveCycle.normalize_cell
            (ArchiveCycle.fieldOr rec.fields col)))))
    ∧ (read_csv (ArchiveCycle.write_csv_utf8sig fields records)).length = records.length
    ∧ (∀ row ∈ read_csv (ArchiveCycle.write_csv_utf8sig fields records),
        row.map Prod.fst = fields)
    ∧ (∀ rf : List (String × PyVal), ∀ col, rf.lookup col = Option.none →
        ArchiveCycle.csvCellStr (ArchiveCycle.normalize_cell (ArchiveCycle.fieldOr rf col))
          = "")
    ∧ (∀ es, ArchiveCycle.normalize_cell (PyVal.list es)
        = PyVal.str (String.intercalate "; " (es.map pyStr)))
    ∧ (∀ entries, ArchiveCycle.normalize_cell (PyVal.dict entries)
        = PyVal.str (pyRepr (PyVal.dict entries))) := by
  have hmain : read_csv (ArchiveCycle.write_csv_utf8sig fields records)
      = records.map (fun rec => fields.map (fun col =>
          (col, ArchiveCycle.csvCellStr (ArchiveCycle.normalize_cell
            (ArchiveCycle.fieldOr rec.fields col))))) := by
    unfold read_csv ArchiveCycle.write_csv_utf8sig
    have hne : ∀ r ∈ (fields :: records.map (fun rec =>
        fields.map (fun col => ArchiveCycle.csvCellStr (ArchiveCycle.normalize_cell
          (ArchiveCycle.fieldOr rec.fields col))))), r ≠ [] := by
      intro r hr
      rcases List.mem_cons.mp hr with rfl | hr2
      · exact hK
      · obtain ⟨rec, -, rfl⟩ := List.mem_map.mp hr2
        intro hcon
        exact hK (List.map_eq_nil_iff.mp hcon)
    have hlen := csvLines_length_ge (fields :: records.map (fun rec =>
        fields.map (fun col => ArchiveCycle.csvCellStr (ArchiveCycle.normalize_cell
          (ArchiveCycle.fieldOr rec.fields col)))))
    rw [parseRecordsFuel_csvLines _ _ hne (Nat.lt_succ_of_le hlen)]
    show ((records.map (fun rec =>
        fields.map (fun col => ArchiveCycle.csvCellStr (ArchiveCycle.normalize_cell
          (ArchiveCycle.fieldOr rec.fields col))))).filter (fun r => !r.isEmpty)).map
        (fun row => fields.zip row) = _
    have hfilter : (records.map (fun rec =>
        fields.map (fun col => ArchiveCycle.csvCellStr (ArchiveCycle.normalize_cell
          (ArchiveCycle.fieldOr rec.fields col))))).filter (fun r => !r.isEmpty)
        = records.map (fun rec =>
            fields.map (fun col => ArchiveCycle.csvCellStr (ArchiveCycle.normalize_cell
              (ArchiveCycle.fieldOr rec.fields col)))) := by
      refine List.filter_eq_self.mpr ?_
      intro r hr
      obtain ⟨rec, -, rfl⟩ := List.mem_map.mp hr
      have hre : (fields.map fun col => ArchiveCycle.csvCellStr (ArchiveCycle.normalize_cell
          (ArchiveCycle.fieldOr rec.fields col))) ≠ [] :=
        fun hcon => hK (List.map_eq_nil_iff.mp hcon)
      simp [hre]
    rw [hfilter, List.map_map]
    refine List.map_congr_left ?_
    intro rec _
    show fields.zip (fields.map fun col => ArchiveCycle.csvCellStr
        (ArchiveCycle.normalize_cell (ArchiveCycle.fieldOr rec.fields col))) = _
    rw [zip_self_map]
  refine ⟨hmain, ?_, ?_, ?_, fun es => rfl, fun entries => rfl⟩
  · rw [hmain, List.length_map]
  · intro row hrow
    rw [hmain] at hrow
    obtain ⟨rec, -, rfl⟩ := List.mem_map.mp hrow
    rw [List.map_map]
    have : (Prod.fst ∘ fun col => (col, ArchiveCycle.csvCellStr
        (ArchiveCycle.normalize_cell (ArchiveCycle.fieldOr rec.fields col))))
        = fun col => col := by
      funext col
      rfl
    rw [this]
    simp
  · intro rf col h
    unfold ArchiveCycle.fieldOr
    rw [h]
    rfl

/-- Witness for **C7 (amended)** at one column and one record. -/
theorem C7_amended_csv_round_trip_witness :
    read_csv (ArchiveCycle.write_csv_utf8sig ["col"]
        [⟨"r1", [("col", PyVal.str "v")]⟩])
      = ([⟨"r1", [("col", PyVal.str "v")]⟩] : List ArchiveCycle.ApiRec).map
          (fun rec => ["col"].map (fun col =>
            (col, ArchiveCycle.csvCellStr (ArchiveCycle.normalize_cell
              (ArchiveCycle.fieldOr rec.fields col)))))
    ∧ (read_csv (ArchiveCycle.write_csv_utf8sig ["col"]
        [⟨"r1", [("col", PyVal.str "v")]⟩])).length
        = ([⟨"r1", [("col", PyVal.str "v")]⟩] : List ArchiveCycle.ApiRec).length
    ∧ (∀ row ∈ read_csv (ArchiveCycle.write_csv_utf8sig ["col"]
        [⟨"r1", [("col", PyVal.str "v")]⟩]),
        row.map Prod.fst = ["col"])
    ∧ (∀ rf : List (String × PyVal), ∀ col, rf.lookup col = Option.none →
        ArchiveCycle.csvCellStr (ArchiveCycle.normalize_cell (ArchiveCycle.fieldOr rf col))
          = "")
    ∧ (∀ es, ArchiveCycle.normalize_cell (PyVal.list es)
        = PyVal.str (String.intercalate "; " (es.map pyStr)))
    ∧ (∀ entries, ArchiveCycle.normalize_cell (PyVal.dict entries)
        = PyVal.str (pyRepr (PyVal.dict entries))) :=
  C7_amended_csv_round_trip ["col"] [⟨"r1", [("col", PyVal.str "v")]⟩] (by decide)

/-- Witness for **C8** at actual `"2100"`, target `"2000"`. -/
theorem C8_kcal_badge_ratio_tiers_witness :
    ((2000 : ℚ) ≤ 0 → kcal_badge "2100" "2000" = "badge")
    ∧ (0 < (2000 : ℚ) → (2100 : ℚ) / 2000 ≤ 1.05 →
        kcal_badge "2100" "2000" = "badge badge-ok")
    ∧ (0 < (2000 : ℚ) → 1.05 < (2100 : ℚ) / 2000 →
        kcal_badge "2100" "2000" = "badge badge-warn")
    ∧ (∀ g, pyFloat g = none →
        kcal_badge g "2000" = "badge" ∧ kcal_badge "2100" g = "badge")
    ∧ kcal_badge "2100" "2000" = "badge badge-ok"
    ∧ kcal_badge "2100" "1800" = "badge badge-warn" :=
  C8_kcal_badge_ratio_tiers "2100" "2000" 2100 2000 pyFloat_2100 pyFloat_2000

end ReportHtml

end NutritionData
